import Mathlib

/-!
# Verification of the portalization core (portals.c) of a BSP level compiler

This file gives a shallow embedding, over exact rational arithmetic, of the
portal builder, bounds calculator, area-flood bookkeeping and
portal-to-source-face resolver found in the repository's `portals.c`
(src/unnamed/part_002), together with theorems checking the repository's
specification claims against that code.

Machine floating point (`double`/`vec_t`) is modelled by `ℚ`; the control
flow of every embedded function is translated line by line from the C++
source.  Functions whose bodies live outside the provided sources (the
winding clipper `winding_t::clip_front` / `clip`, `WindingIsTiny`,
`BaseWindingForPlane`, plane canonicalisation, and the per-game content
policy) are modelled from the specification text and are marked as such in
their doc comments.
-/

set_option maxHeartbeats 1000000

namespace Portals

/-- A 3-component vector over `ℚ`, modelling `qvec3d`. -/
structure Vec3 where
  x : ℚ
  y : ℚ
  z : ℚ
deriving DecidableEq, Repr

namespace Vec3

def add (a b : Vec3) : Vec3 := ⟨a.x + b.x, a.y + b.y, a.z + b.z⟩

def sub (a b : Vec3) : Vec3 := ⟨a.x - b.x, a.y - b.y, a.z - b.z⟩

def smul (q : ℚ) (a : Vec3) : Vec3 := ⟨q * a.x, q * a.y, q * a.z⟩

def neg (a : Vec3) : Vec3 := ⟨-a.x, -a.y, -a.z⟩

def dot (a b : Vec3) : ℚ := a.x * b.x + a.y * b.y + a.z * b.z

def cross (a b : Vec3) : Vec3 :=
  ⟨a.y * b.z - a.z * b.y, a.z * b.x - a.x * b.z, a.x * b.y - a.y * b.x⟩

/-- Component access by axis index 0/1/2, as the C code's `v[i]`. -/
def comp (a : Vec3) : ℕ → ℚ
  | 0 => a.x
  | 1 => a.y
  | _ => a.z

/-- Componentwise minimum. -/
def cmin (a b : Vec3) : Vec3 := ⟨min a.x b.x, min a.y b.y, min a.z b.z⟩

/-- Componentwise maximum. -/
def cmax (a b : Vec3) : Vec3 := ⟨max a.x b.x, max a.y b.y, max a.z b.z⟩

end Vec3

/-- A plane `normal · p = dist`, modelling `qplane3d`. -/
structure Plane where
  normal : Vec3
  dist : ℚ
deriving DecidableEq, Repr

namespace Plane

/-- `-qplane3d`: the same plane facing the other way. -/
def flip (p : Plane) : Plane := ⟨p.normal.neg, -p.dist⟩

/-- Signed distance of a point from the plane (`plane.distance_to(p)`). -/
def distTo (p : Plane) (v : Vec3) : ℚ := Vec3.dot p.normal v - p.dist

end Plane

/-- An axis-aligned bounding box, modelling `aabb3d`. -/
structure Aabb where
  mins : Vec3
  maxs : Vec3
deriving DecidableEq, Repr

namespace Aabb

/-- Modelled from the spec: the default-constructed `aabb3d{}` is an empty
box; modelled as mins at a huge sentinel and maxs at its negation, so that
expanding by any point yields that point's box. -/
def emptyBox : Aabb :=
  ⟨⟨(10:ℚ)^9, (10:ℚ)^9, (10:ℚ)^9⟩, ⟨-(10:ℚ)^9, -(10:ℚ)^9, -(10:ℚ)^9⟩⟩

/-- `aabb3d += point`: expand the box to contain a point. -/
def addPoint (b : Aabb) (v : Vec3) : Aabb :=
  ⟨Vec3.cmin b.mins v, Vec3.cmax b.maxs v⟩

/-- `aabb3d + aabb3d`: union of two boxes. -/
def unionBox (a b : Aabb) : Aabb :=
  ⟨Vec3.cmin a.mins b.mins, Vec3.cmax a.maxs b.maxs⟩

/-- `aabb3d::grow(s)`: pad the box by `s` on every side. -/
def grow (b : Aabb) (s : ℚ) : Aabb :=
  ⟨⟨b.mins.x - s, b.mins.y - s, b.mins.z - s⟩,
   ⟨b.maxs.x + s, b.maxs.y + s, b.maxs.z + s⟩⟩

/-- Access `bounds[j]`: index 0 is `mins`, index 1 is `maxs`. -/
def side (b : Aabb) : ℕ → Vec3
  | 0 => b.mins
  | _ => b.maxs

end Aabb

/-- A winding: the ordered vertex list of a convex planar polygon
(`winding_t`). -/
abbrev Winding := List Vec3

namespace Winding

/-- Classification of one point against a plane with an epsilon band:
`1` = strictly in front, `-1` = strictly behind, `0` = on the plane. -/
def ptSide (pl : Plane) (eps : ℚ) (v : Vec3) : Int :=
  let d := pl.distTo v
  if d > eps then 1 else if d < -eps then -1 else 0

/-- Does some point of the winding lie strictly in front of the plane? -/
def hasFront (w : Winding) (pl : Plane) (eps : ℚ) : Bool :=
  w.any (fun v => ptSide pl eps v = 1)

/-- Does some point of the winding lie strictly behind the plane? -/
def hasBack (w : Winding) (pl : Plane) (eps : ℚ) : Bool :=
  w.any (fun v => ptSide pl eps v = -1)

/-- The exact intersection of edge `a`–`b` with the plane (used when the two
endpoints are strictly on opposite sides, so the denominator is nonzero). -/
def edgeCross (pl : Plane) (a b : Vec3) : Vec3 :=
  let da := pl.distTo a
  let db := pl.distTo b
  let t := da / (da - db)
  Vec3.add a (Vec3.smul t (Vec3.sub b a))

/-- One Sutherland–Hodgman step: keep the part of the polygon on the front
side of the plane, walking each edge of the (cyclically closed) vertex
list.  Points within the epsilon band are kept on both sides. -/
def frontPart (w : Winding) (pl : Plane) (eps : ℚ) : Winding :=
  let n := w.length
  (List.range n).foldr
    (fun i acc =>
      match w[i]?, w[(i+1) % n]? with
      | some a, some b =>
        let sa := ptSide pl eps a
        let sb := ptSide pl eps b
        if sa = -1 then
          if sb = 1 then edgeCross pl a b :: acc else acc
        else
          if sa = 1 ∧ sb = -1 then a :: edgeCross pl a b :: acc
          else a :: acc
      | _, _ => acc)
    []

/-- Modelled from the spec: `winding_t::clip_front(plane, epsilon,
keep_on_plane)` (body not in src/).  Returns the sub-polygon on the front
side of the plane using an epsilon band for on-plane classification, `none`
if the polygon is clipped away entirely; a winding lying entirely within
the band is kept only when `keepon` is set. -/
def clipFront (w : Winding) (pl : Plane) (eps : ℚ) (keepon : Bool) :
    Option Winding :=
  if ¬ hasFront w pl eps ∧ ¬ hasBack w pl eps then
    if keepon then some w else none
  else if ¬ hasFront w pl eps then none
  else if ¬ hasBack w pl eps then some w
  else some (frontPart w pl eps)

/-- Modelled from the spec: `winding_t::clip_back`, symmetric to
`clipFront`. -/
def clipBack (w : Winding) (pl : Plane) (eps : ℚ) (keepon : Bool) :
    Option Winding :=
  clipFront w pl.flip eps keepon

/-- Modelled from the spec: `winding_t::clip(plane, epsilon, keep_on_plane)`
(body not in src/) returns the front and the back fragment in one pass; a
winding entirely within the epsilon band goes to the front side when
`keepon` is set and is dropped otherwise. -/
def clipBoth (w : Winding) (pl : Plane) (eps : ℚ) (keepon : Bool) :
    Option Winding × Option Winding :=
  if ¬ hasFront w pl eps ∧ ¬ hasBack w pl eps then
    if keepon then (some w, none) else (none, none)
  else if ¬ hasBack w pl eps then (some w, none)
  else if ¬ hasFront w pl eps then (none, some w)
  else (some (frontPart w pl eps), some (frontPart w pl.flip eps))

/-- Largest axis-aligned span of the winding's vertices (its extent). -/
def extent (w : Winding) : ℚ :=
  match w with
  | [] => 0
  | v :: vs =>
    let box := vs.foldl Aabb.addPoint ⟨v, v⟩
    max (box.maxs.x - box.mins.x) (max (box.maxs.y - box.mins.y) (box.maxs.z - box.mins.z))

end Winding

/-- Modelled from the spec: `WindingIsTiny(w, size)` (declared in
src/unnamed/part_000 with default `size = 0.2`; body not in src/) flags
windings whose extent is below the numeric significance threshold. -/
def WindingIsTiny (w : Winding) (size : ℚ) : Bool :=
  Winding.extent w < size

/-- The default tiny threshold, 0.2 units (src/unnamed/part_000 line 41). -/
def tinyDefault : ℚ := 1 / 5

/-- Modelled from the spec: `BaseWindingForPlane(plane)` (body not in src/)
builds a huge quad lying on the plane.  An orthogonal in-plane basis is
obtained by exact projection instead of floating-point normalisation; every
vertex satisfies `normal · v = dist` exactly whenever the plane normal is
nonzero. -/
def BaseWindingForPlane (pl : Plane) : Winding :=
  let n := pl.normal
  let n2 := Vec3.dot n n
  let upAxis : Vec3 :=
    if n.x * n.x ≥ n.y * n.y ∧ n.x * n.x ≥ n.z * n.z then ⟨0, 0, 1⟩
    else if n.y * n.y ≥ n.z * n.z then ⟨0, 0, 1⟩
    else ⟨1, 0, 0⟩
  let vup0 := Vec3.sub upAxis (Vec3.smul (Vec3.dot upAxis n / n2) n)
  let vright0 := Vec3.cross vup0 n
  let huge : ℚ := 10^6
  let vup := Vec3.smul huge vup0
  let vright := Vec3.smul huge vright0
  let org := Vec3.smul (pl.dist / n2) n
  [Vec3.sub (Vec3.sub org vright) vup,
   Vec3.sub (Vec3.add org vright) vup,
   Vec3.add (Vec3.add org vright) vup,
   Vec3.add (Vec3.sub org vright) vup]

/-! ## Portal builder data model -/

/-- A transient build portal, modelling `buildportal_t`: the canonical
plane, the node whose split created it (`onnode`, `none` for the headnode
box portals), references to the two adjacent nodes by node id (`none`
models a null pointer), and the owned winding.  `pid` models C++ object
identity: every allocation receives a fresh id from a counter threaded
through the builder. -/
structure BuildPortal where
  plane : Plane
  onnode : Option ℕ
  node0 : Option ℕ
  node1 : Option ℕ
  winding : Winding
  pid : ℕ
deriving DecidableEq, Repr

/-- The epsilon used by `SplitNodePortals` (`SPLIT_WINDING_EPSILON`). -/
def SPLIT_WINDING_EPSILON : ℚ := 1 / 1000

/-- The epsilon used by `BaseWindingForNode` (`BASE_WINDING_EPSILON`). -/
def BASE_WINDING_EPSILON : ℚ := 1 / 1000

/-- Result of `splitNodePortals`: the two child lists, the number of tiny
fragments dropped (`stats.c_tinyportals` increments), and the next fresh
object id. -/
structure SplitResult where
  front : List BuildPortal
  back : List BuildPortal
  tinyDelta : ℕ
  nextId : ℕ
deriving DecidableEq, Repr

/-- The two clipped fragments of a portal winding against a node's split
plane (lines 307–317), after the tiny filter: a fragment below the tiny
threshold becomes `none` (it is dropped). -/
def splitFrags (plane : Plane) (w : Winding) : Option Winding × Option Winding :=
  let fb := Winding.clipBoth w plane SPLIT_WINDING_EPSILON true
  (match fb.1 with
   | some v => if WindingIsTiny v tinyDefault then none else some v
   | none => none,
   match fb.2 with
   | some v => if WindingIsTiny v tinyDefault then none else some v
   | none => none)

/-- The number of `c_tinyportals` increments contributed by splitting one
winding (lines 309–317): one per clipped fragment that exists but is
tiny. -/
def tinyDropCount (plane : Plane) (w : Winding) : ℕ :=
  (match (Winding.clipBoth w plane SPLIT_WINDING_EPSILON true).1 with
   | some v => if WindingIsTiny v tinyDefault then 1 else 0
   | none => 0) +
  (match (Winding.clipBoth w plane SPLIT_WINDING_EPSILON true).2 with
   | some v => if WindingIsTiny v tinyDefault then 1 else 0
   | none => 0)

/-- Relink a portal from the split node `nid` to one of its children: the
child replaces `nid` on whichever side the node occupied (`p->set_nodes`
in the one-sided branches of lines 323–340, with `other_node` kept on the
other side). -/
def relinkTo (p : BuildPortal) (nid child : ℕ) : BuildPortal :=
  if p.node0 = some nid then { p with node0 := some child }
  else { p with node1 := some child }

/-- `SplitNodePortals` (src/unnamed/part_002 lines 283–364): move or split
the portals bounding the node with id `nid` (split plane `plane`, children
`f`/`b`) so that the children are bounded instead.  A portal not linked to
the node is a fatal mislink; each clipped fragment below the tiny
threshold is dropped and counted; a portal whose winding survives on only
one side is relinked to that child with its winding left untouched (the
source never reassigns `p->winding` in those branches); a straddling
portal keeps its front fragment and a freshly allocated portal receives
the back fragment. -/
def splitNodePortals (plane : Plane) (f b nid : ℕ) :
    List BuildPortal → ℕ → Except String SplitResult
  | [], k => .ok ⟨[], [], 0, k⟩
  | p :: ps, k =>
    if ¬ (p.node0 = some nid ∨ p.node1 = some nid) then
      .error "CutNodePortals_r: mislinked portal"
    else
      match splitFrags plane p.winding with
      | (none, none) => do
        let r ← splitNodePortals plane f b nid ps k
        .ok ⟨r.front, r.back,
             tinyDropCount plane p.winding + r.tinyDelta, r.nextId⟩
      | (none, some _) => do
        let r ← splitNodePortals plane f b nid ps k
        .ok ⟨r.front, relinkTo p nid b :: r.back,
             tinyDropCount plane p.winding + r.tinyDelta, r.nextId⟩
      | (some _, none) => do
        let r ← splitNodePortals plane f b nid ps k
        .ok ⟨relinkTo p nid f :: r.front, r.back,
             tinyDropCount plane p.winding + r.tinyDelta, r.nextId⟩
      | (some fv, some bv) => do
        let r ← splitNodePortals plane f b nid ps (k + 1)
        .ok ⟨relinkTo { p with winding := fv } nid f :: r.front,
             { relinkTo p nid b with winding := bv, pid := k } :: r.back,
             tinyDropCount plane p.winding + r.tinyDelta, r.nextId⟩

/-- Specification-side routing contract of `SplitNodePortals` for one
boundary portal, by the shape of its tiny-filtered fragments: dropped
entirely, sent whole (winding untouched) to the front or the back child,
or split with the front fragment kept on the original portal and the back
fragment on a fresh portal. -/
def routedAsSplit (plane : Plane) (nid f b : ℕ) (p : BuildPortal)
    (r : SplitResult) : Prop :=
  (splitFrags plane p.winding = (none, none) →
    p.pid ∉ r.front.map BuildPortal.pid ∧
    p.pid ∉ r.back.map BuildPortal.pid) ∧
  (∀ fv, splitFrags plane p.winding = (some fv, none) →
    relinkTo p nid f ∈ r.front) ∧
  (∀ bv, splitFrags plane p.winding = (none, some bv) →
    relinkTo p nid b ∈ r.back) ∧
  (∀ fv bv, splitFrags plane p.winding = (some fv, some bv) →
    relinkTo { p with winding := fv } nid f ∈ r.front ∧
    ∃ kb, { relinkTo p nid b with winding := bv, pid := kb } ∈ r.back)

/-- `BaseWindingForNode` (src/unnamed/part_002 lines 205–223): the winding
of the node's plane clipped by all its ancestors.  The `parent` pointer
chain is embedded as the list of (ancestor plane, this-subtree-is-front-child)
pairs, nearest ancestor first. -/
def baseWindingForNode (plane : Plane) (ancestors : List (Plane × Bool)) :
    Option Winding :=
  ancestors.foldl
    (fun w a =>
      match w with
      | none => none
      | some v =>
        if a.2 then Winding.clipFront v a.1 BASE_WINDING_EPSILON false
        else Winding.clipBack v a.1 BASE_WINDING_EPSILON false)
    (some (BaseWindingForPlane plane))

/-- The boundary-portal clipping loop of `MakeNodePortal` (lines 239–255):
clip the candidate winding to the front of every boundary portal's plane,
oriented toward the node; a boundary portal not linked to the node is a
fatal mislink; the loop stops once the winding is gone. -/
def clipByBoundary (nid : ℕ) :
    Option Winding → List BuildPortal → Except String (Option Winding)
  | w, [] => .ok w
  | none, _ :: _ => .ok none
  | some v, p :: ps =>
    if p.node0 = some nid then
      clipByBoundary nid (Winding.clipFront v p.plane (1/10) false) ps
    else if p.node1 = some nid then
      clipByBoundary nid (Winding.clipFront v p.plane.flip (1/10) false) ps
    else
      .error "CutNodePortals_r: mislinked portal"

/-- Result of `makeNodePortal`: the optional new portal, the tiny-portal
statistic increment, and the next fresh object id. -/
structure NodePortalResult where
  portal : Option BuildPortal
  tinyDelta : ℕ
  nextId : ℕ
deriving DecidableEq, Repr

/-- `MakeNodePortal` (src/unnamed/part_002 lines 234–273): build the new
portal introduced by the split of node `nid`, by clipping the node's base
winding against every ancestor plane and then against every boundary
portal.  A vanished winding yields no portal; a tiny winding is dropped
and counted; otherwise the portal connects the two children. -/
def makeNodePortal (nid : ℕ) (plane : Plane) (f b : ℕ)
    (ancestors : List (Plane × Bool)) (boundary : List BuildPortal) (k : ℕ) :
    Except String NodePortalResult := do
  let w ← clipByBoundary nid (baseWindingForNode plane ancestors) boundary
  match w with
  | none => .ok ⟨none, 0, k⟩
  | some v =>
    if WindingIsTiny v tinyDefault then
      .ok ⟨none, 1, k⟩
    else
      .ok ⟨some ⟨plane, some nid, some f, some b, v, k⟩, 0, k + 1⟩

/-- The BSP tree shape consumed by the portal builder: every node carries
its arena id; internal nodes carry their split plane and the
detail-separator flag used by the coarse (visibility) traversal mode. -/
inductive GTree where
  | leaf (id : ℕ)
  | node (id : ℕ) (plane : Plane) (detailSeparator : Bool) (c0 c1 : GTree)
deriving DecidableEq, Repr

/-- The id of a subtree's root node. -/
def GTree.rootId : GTree → ℕ
  | .leaf i => i
  | .node i _ _ _ _ => i

/-- `portaltype_t`: full-tree granularity versus visibility granularity. -/
inductive PortalType where
  | tree
  | vis
deriving DecidableEq, Repr

/-- Result of a portal-list producing tree pass: the portals, the
tiny-portal statistic increment, and the next fresh object id. -/
structure PortalListResult where
  portals : List BuildPortal
  tinyDelta : ℕ
  nextId : ℕ
deriving DecidableEq, Repr

/-- `ClipNodePortalsToTree_r` (src/unnamed/part_002 lines 441–459):
descend the subtree splitting the portal list until every portal touches
only terminal nodes on that side. -/
def clipNodePortalsToTree (ty : PortalType) :
    GTree → List BuildPortal → ℕ → Except String PortalListResult
  | .leaf _, ps, k => .ok ⟨ps, 0, k⟩
  | .node nid plane det c0 c1, ps, k =>
    if ps.isEmpty then .ok ⟨ps, 0, k⟩
    else if ty = .vis ∧ det then .ok ⟨ps, 0, k⟩
    else do
      let s ← splitNodePortals plane c0.rootId c1.rootId nid ps k
      let rf ← clipNodePortalsToTree ty c0 s.front s.nextId
      let rb ← clipNodePortalsToTree ty c1 s.back rf.nextId
      .ok ⟨rf.portals ++ rb.portals,
           s.tinyDelta + rf.tinyDelta + rb.tinyDelta, rb.nextId⟩

/-- `MakeTreePortals_r` (src/unnamed/part_002 lines 468–513): given the
boundary portals of a subtree, return the portal list of the fully
portalized subtree.  The node portal is built before the boundary list is
split; the children recurse on their disjoint split lists; the node portal
is then pushed down both subtrees and the three lists are concatenated. -/
def makeTreePortals_r (ty : PortalType) (ancestors : List (Plane × Bool)) :
    GTree → List BuildPortal → ℕ → Except String PortalListResult
  | .leaf _, bp, k => .ok ⟨bp, 0, k⟩
  | .node nid plane det c0 c1, bp, k =>
    if ty = .vis ∧ det then .ok ⟨bp, 0, k⟩
    else do
      let np ← makeNodePortal nid plane c0.rootId c1.rootId ancestors bp k
      let s ← splitNodePortals plane c0.rootId c1.rootId nid bp np.nextId
      let rf ← makeTreePortals_r ty ((plane, true) :: ancestors) c0 s.front s.nextId
      let rb ← makeTreePortals_r ty ((plane, false) :: ancestors) c1 s.back rf.nextId
      match np.portal with
      | none =>
        .ok ⟨rf.portals ++ rb.portals,
             np.tinyDelta + s.tinyDelta + rf.tinyDelta + rb.tinyDelta, rb.nextId⟩
      | some npp => do
        let half ← clipNodePortalsToTree ty c0 [npp] rb.nextId
        let full ← clipNodePortalsToTree ty c1 half.portals half.nextId
        .ok ⟨rf.portals ++ rb.portals ++ full.portals,
             np.tinyDelta + s.tinyDelta + rf.tinyDelta + rb.tinyDelta +
               half.tinyDelta + full.tinyDelta,
             full.nextId⟩

/-- A finalized portal (`portal_t`) as promoted from a build portal:
plane, onnode, the two adjacent node ids and the owned winding. -/
structure TPortal where
  plane : Plane
  onnode : Option ℕ
  node0 : Option ℕ
  node1 : Option ℕ
  winding : Winding
deriving DecidableEq, Repr

/-- `MakePortalsFromBuildportals` (src/unnamed/part_002 lines 371–381):
promote every build portal to a permanent portal carrying the same plane,
onnode and winding, linked between the same two nodes. -/
def makePortalsFromBuildportals (bps : List BuildPortal) : List TPortal :=
  bps.map (fun p => ⟨p.plane, p.onnode, p.node0, p.node1, p.winding⟩)

/-! ## Headnode portals and the entity-flood predicate -/

/-- Modelled from the spec: the `SIDESPACE` padding constant (not in src/),
the safety margin around the tree bounds "so there will never be null
volume leafs". -/
def SIDESPACE : ℚ := 24

/-- The unit vector of axis `i`. -/
def axisVec : ℕ → Vec3
  | 0 => ⟨1, 0, 0⟩
  | 1 => ⟨0, 1, 0⟩
  | _ => ⟨0, 0, 1⟩

/-- Modelled from the spec: plane canonicalisation (`set_plane(pl, true)`,
body not in src/).  The canonical representative of a plane family faces
"positively": when the normal's first nonzero component is negative the
plane is stored flipped and the setter reports the flip. -/
def canonicalFlips (pl : Plane) : Bool :=
  if pl.normal.x ≠ 0 then pl.normal.x < 0
  else if pl.normal.y ≠ 0 then pl.normal.y < 0
  else pl.normal.z < 0

/-- The six box planes of `MakeHeadnodePortals` (lines 143–158): portal
`n` (with `i = n % 3`, `j = n / 3`) has `normal[i] = 1, dist = mins[i]`
when `j = 0` and `normal[i] = -1, dist = -maxs[i]` when `j = 1`. -/
def headnodePlane (bounds : Aabb) (n : ℕ) : Plane :=
  let i := n % 3
  let j := n / 3
  if j = 1 then ⟨(axisVec i).neg, -((bounds.side 1).comp i)⟩
  else ⟨axisVec i, (bounds.side 0).comp i⟩

/-- The winding of box portal `n` after the clipping loop of
`MakeHeadnodePortals` (lines 170–183): the base winding of its own plane
clipped to the front of each of the other five box planes, `none` if some
clip eliminates it. -/
def headnodeClippedWinding (bounds : Aabb) (eps : ℚ) (n : ℕ) : Option Winding :=
  ((List.range 6).filter (fun j => j ≠ n)).foldl
    (fun w j =>
      match w with
      | none => none
      | some v => Winding.clipFront v (headnodePlane bounds j) eps true)
    (some (BaseWindingForPlane (headnodePlane bounds n)))

/-- A leaf-level node record as seen by the flood engine: the `is_leaf`
flag and the contents classification (`node_t::contents`, an opaque
content code consumed through the game policy). -/
structure FNode where
  is_leaf : Bool
  contents : ℕ
deriving DecidableEq, Repr

/-- Modelled from the spec: the per-target-format content policy object
(spec §6; bodies not in src/): a synthetic solid-contents constructor, the
solid-classification predicate, the strongest-transition resolver, the
emptiness predicate and the face-generation predicate (side `false` is
`SIDE_FRONT`, `true` is `SIDE_BACK`). -/
structure GamePolicy where
  createSolid : ℕ
  isAnySolid : ℕ → Bool
  visibleContents : ℕ → ℕ → ℕ
  isEmptyContents : ℕ → Bool
  generatesFace : ℕ → ℕ → Bool → Bool

/-- Result of `makeHeadnodePortals`: the synthetic outside node as
configured by the function, and the six box portals. -/
structure HeadnodeResult where
  outsideNode : FNode
  portals : List BuildPortal
deriving DecidableEq, Repr

/-- Build one finished box portal of `MakeHeadnodePortals`: the clipped
winding of portal `n`, with the canonicalised plane and the node pair
ordered by the canonicalisation flip, or the fatal error when the winding
is clipped away. -/
def headnodePortal (bounds : Aabb) (eps : ℚ) (headId outsideId n : ℕ) :
    Except String BuildPortal :=
  match headnodeClippedWinding bounds eps n with
  | none => .error "portal winding clipped away"
  | some w =>
    let pl := headnodePlane bounds n
    let flipped := canonicalFlips pl
    let cpl := if flipped then pl.flip else pl
    if flipped then
      .ok ⟨cpl, none, some outsideId, some headId, w, n⟩
    else
      .ok ⟨cpl, none, some headId, some outsideId, w, n⟩

/-- The error-propagating collection loop over the six portal indices
(the clipping loop of lines 170–183 aborts the compile at the first
winding clipped away; after it, lines 186–190 collect the portals in
index order). -/
def collectPortals (f : ℕ → Except String BuildPortal) :
    List ℕ → Except String (List BuildPortal)
  | [] => .ok []
  | n :: rest => do
    let p ← f n
    let ps ← collectPortals f rest
    .ok (p :: ps)

/-- `MakeHeadnodePortals` (src/unnamed/part_002 lines 128–191): pad the
tree bounds by `SIDESPACE`, mark the synthetic outside node as a solid
leaf, build the six box portals facing the outside node, and clip each
box winding against the other five box planes; a winding clipped away is
a fatal error and no portal list is produced. -/
def makeHeadnodePortals (treeBounds : Aabb) (headId outsideId : ℕ)
    (g : GamePolicy) (eps : ℚ) : Except String HeadnodeResult := do
  let ps ← collectPortals
    (headnodePortal (treeBounds.grow SIDESPACE) eps headId outsideId)
    (List.range 6)
  .ok ⟨⟨true, g.createSolid⟩, ps⟩

/-- `MakeTreePortals` (src/unnamed/part_002 lines 520–545): build the six
headnode box portals, run the recursive full-tree pass from the headnode,
and promote the surviving build portals to the tree's final portal
collection; returns the collection together with the final
`c_tinyportals` statistic.  The fresh-identity counter resumes at 6
after the six box-portal allocations. -/
def makeTreePortals (tree : GTree) (treeBounds : Aabb) (outsideId : ℕ)
    (g : GamePolicy) (eps : ℚ) : Except String (List TPortal × ℕ) := do
  let hr ← makeHeadnodePortals treeBounds tree.rootId outsideId g eps
  let r ← makeTreePortals_r PortalType.tree [] tree hr.portals 6
  .ok (makePortalsFromBuildportals r.portals, r.tinyDelta)

/-- A portal as seen by the flood engine, with its two adjacent node
records inline. -/
structure FPortal where
  fnode0 : FNode
  fnode1 : FNode
deriving DecidableEq, Repr

/-- `Portal_EntityFlood` (src/unnamed/part_002 lines 86–100): the entity
flood may cross a portal between two leaves unless either side is solid;
a portal still touching a non-leaf is a fatal error.  The side argument
`s` is accepted and ignored, as in the source. -/
def Portal_EntityFlood (g : GamePolicy) (p : FPortal) (s : Bool) :
    Except String Bool :=
  if ¬ p.fnode0.is_leaf ∨ ¬ p.fnode1.is_leaf then
    .error "Portal_EntityFlood: not a leaf"
  else if g.isAnySolid p.fnode0.contents ∨ g.isAnySolid p.fnode1.contents then
    .ok false
  else
    let _ := s
    .ok true

/-! ## Area-flood bookkeeping -/

/-- The two recorded area ids of an area-portal entity
(`mapentity_t::portalareas`, 0 meaning unset). -/
structure APEntity where
  portalareas0 : ℕ
  portalareas1 : ℕ
deriving DecidableEq, Repr

/-- The area-portal bookkeeping step of `FloodAreas_r` (src/unnamed/part_002
lines 600–618): the flood, running with current area id `c`
(`map.c_areas`), reaches the area-portal cluster owned by entity `e`.
Returns the updated entity and the number of warnings printed: a touch by
an already-recorded area is ignored; a touch by a third distinct area is
discarded with one warning; otherwise the area is recorded in the first
free slot. -/
def floodTouchEntity (e : APEntity) (c : ℕ) : APEntity × ℕ :=
  if e.portalareas0 = c ∨ e.portalareas1 = c then (e, 0)
  else if e.portalareas1 ≠ 0 then (e, 1)
  else if e.portalareas0 ≠ 0 then ({ e with portalareas1 := c }, 0)
  else ({ e with portalareas0 := c }, 0)

/-! ## Bounds calculator -/

/-- The tree shape consumed by the bounds calculator.  A leaf carries the
windings of its incident portals (the intrusive `node->portals` /
`next[s]` chain rendered as a list); every node carries the *stale* value
of its `bounds` field from before the pass, because a child's degenerate
fallback reads `node->parent->bounds` before the parent has recomputed its
own bounds. -/
inductive BTree where
  | bleaf (windings : List Winding) (stale : Aabb)
  | bnode (stale : Aabb) (c0 c1 : BTree)
deriving DecidableEq, Repr

/-- `CalcNodeBounds` (src/unnamed/part_002 lines 388–400): reset the box
and expand it by every vertex of every incident portal winding. -/
def calcNodeBounds (ws : List Winding) : Aabb :=
  ws.foldl (fun acc w => w.foldl Aabb.addPoint acc) Aabb.emptyBox

/-- Does some component of the box's `mins` exceed the world extent in
magnitude?  This is the unbounded-volume test of `CalcTreeBounds_r`
(lines 423–428), which inspects only `mins` and warns at most once. -/
def minsBeyondExtent (we : ℚ) (b : Aabb) : Bool :=
  |b.mins.x| > we ∨ |b.mins.y| > we ∨ |b.mins.z| > we

/-- The warning/fallback tail of `CalcTreeBounds_r` (lines 415–428):
a box empty in the x-direction is degraded to the parent's `mins` point
with a warning; afterwards a box whose `mins` has a component beyond the
world extent gets one warning and is left unchanged.  Returns the final
box and the two warning flags. -/
def boundsPost (we : ℚ) (parentBounds : Aabb) (raw : Aabb) :
    Aabb × Bool × Bool :=
  if raw.mins.x ≥ raw.maxs.x then
    let fin : Aabb := ⟨parentBounds.mins, parentBounds.mins⟩
    (fin, true, minsBeyondExtent we fin)
  else
    (raw, false, minsBeyondExtent we raw)

/-- The result tree of the bounds pass.  Each node records the raw box
(vertex union for a leaf, union of the children's final boxes for an
internal node), the final box after the degenerate fallback, and the two
warning flags. -/
inductive RBTree where
  | rleaf (raw finalB : Aabb) (zwarn uwarn : Bool)
  | rnode (raw finalB : Aabb) (zwarn uwarn : Bool) (c0 c1 : RBTree)
deriving DecidableEq, Repr

/-- The final bounds stored at the root of a result subtree. -/
def RBTree.finalBounds : RBTree → Aabb
  | .rleaf _ fin _ _ => fin
  | .rnode _ fin _ _ _ _ => fin

/-- The raw (pre-fallback) bounds at the root of a result subtree. -/
def RBTree.rawBounds : RBTree → Aabb
  | .rleaf raw _ _ _ => raw
  | .rnode raw _ _ _ _ _ => raw

/-- The zero-volume warning flag at the root of a result subtree. -/
def RBTree.zw : RBTree → Bool
  | .rleaf _ _ z _ => z
  | .rnode _ _ z _ _ _ => z

/-- The unbounded-volume warning flag at the root of a result subtree. -/
def RBTree.uw : RBTree → Bool
  | .rleaf _ _ _ u => u
  | .rnode _ _ _ u _ _ => u

/-- All (raw, final, zero-volume-warning, unbounded-warning) records of a
result tree, root first. -/
def RBTree.entries : RBTree → List (Aabb × Aabb × Bool × Bool)
  | .rleaf raw fin z u => [(raw, fin, z, u)]
  | .rnode raw fin z u c0 c1 => (raw, fin, z, u) :: (c0.entries ++ c1.entries)

/-- `CalcTreeBounds_r` (src/unnamed/part_002 lines 402–429): leaves get
their vertex-union bounds via `CalcNodeBounds`; an internal node, after
both children are processed independently, gets the union of the
children's (final) bounds; both then pass through the warning/fallback
tail.  `parentBounds` is the caller's stale `bounds` value, matching the
`node->parent->bounds` read. -/
def calcTreeBounds (we : ℚ) (parentBounds : Aabb) : BTree → RBTree
  | .bleaf ws _ =>
    let raw := calcNodeBounds ws
    let r := boundsPost we parentBounds raw
    .rleaf raw r.1 r.2.1 r.2.2
  | .bnode stale c0 c1 =>
    let r0 := calcTreeBounds we stale c0
    let r1 := calcTreeBounds we stale c1
    let raw := Aabb.unionBox r0.finalBounds r1.finalBounds
    let r := boundsPost we parentBounds raw
    .rnode raw r.1 r.2.1 r.2.2 r0 r1

/-- The least element of a nonempty list of rationals (specification-side
helper for the bounds claims). -/
def coordMin (a : ℚ) (l : List ℚ) : ℚ := l.foldl min a

/-- The greatest element of a nonempty list of rationals. -/
def coordMax (a : ℚ) (l : List ℚ) : ℚ := l.foldl max a

/-- Specification-side bounding box of a nonempty point list: componentwise
minima and maxima over all the points. -/
def aabbSpec (q : Vec3) (ps : List Vec3) : Aabb :=
  ⟨⟨coordMin q.x (ps.map Vec3.x), coordMin q.y (ps.map Vec3.y),
    coordMin q.z (ps.map Vec3.z)⟩,
   ⟨coordMax q.x (ps.map Vec3.x), coordMax q.y (ps.map Vec3.y),
    coordMax q.z (ps.map Vec3.z)⟩⟩

/-! ## Portal-to-source-face resolver -/

/-- A brush side (`side_t`) as consumed by `FindPortalSide`: the plane
family (`planenum & ~1`, rendered as a family index), the orientation bit
(`planenum & 1`), the bevel flag, the normal of `get_positive_plane()`,
and an identity `sid` naming the original source face. -/
structure BrushSide where
  planenumFam : ℕ
  planenumFlip : Bool
  bevel : Bool
  positiveNormal : Vec3
  sid : ℕ
deriving DecidableEq, Repr

/-- An original input brush: contents, position in map declaration order,
and its sides. -/
structure RBrush where
  contents : ℕ
  mapIndex : ℕ
  sides : List BrushSide
deriving DecidableEq, Repr

/-- A leaf node as consumed by `FindPortalSide`: contents and the
`original_brushes` vector in map declaration order. -/
structure RNode where
  contents : ℕ
  originalBrushes : List RBrush
deriving DecidableEq, Repr

/-- A portal as consumed by `FindPortalSide`: the onnode's plane family
(`p->onnode->planenum`, canonical), the onnode plane's normal (`p1`), and
the two adjacent leaf nodes. -/
structure RPortal where
  onnodeFam : ℕ
  onnodeNormal : Vec3
  rnode0 : RNode
  rnode1 : RNode
deriving DecidableEq, Repr

/-- The mutable selection state of `FindPortalSide`: `bestside[0..1]`,
`exactside[0..1]` and the shared `bestdot` accumulator. -/
structure FPSState where
  bestside0 : Option BrushSide
  bestside1 : Option BrushSide
  exactside0 : Option BrushSide
  exactside1 : Option BrushSide
  bestdot : ℚ
deriving DecidableEq, Repr

/-- Read `exactside[i]` (slot `false` is index 0). -/
def FPSState.exact (st : FPSState) (i : Bool) : Option BrushSide :=
  if i then st.exactside1 else st.exactside0

/-- Read `bestside[i]`. -/
def FPSState.best (st : FPSState) (i : Bool) : Option BrushSide :=
  if i then st.bestside1 else st.bestside0

/-- `if (!exactside[i]) exactside[i] = &side`. -/
def FPSState.setExactIfUnset (st : FPSState) (i : Bool) (s : BrushSide) :
    FPSState :=
  if i then
    match st.exactside1 with
    | some _ => st
    | none => { st with exactside1 := some s }
  else
    match st.exactside0 with
    | some _ => st
    | none => { st with exactside0 := some s }

/-- `bestside[i] = &side`. -/
def FPSState.setBest (st : FPSState) (i : Bool) (s : BrushSide) : FPSState :=
  if i then { st with bestside1 := some s }
  else { st with bestside0 := some s }

/-- The dot-product branch of the inner loop of `FindPortalSide` (lines
841–852): strict improvement over the shared `bestdot`, recording the
side into the slot(s) the brush's generation flags allow (outward faces
into slot `!j`, inward faces into slot `j`). -/
def dotStepState (nv : Vec3) (j genOut genIn : Bool) (st : FPSState)
    (s : BrushSide) : FPSState :=
  let dot := Vec3.dot nv s.positiveNormal
  if dot > st.bestdot then
    let sa := { st with bestdot := dot }
    let sb := if genOut then sa.setBest (!j) s else sa
    if genIn then sb.setBest j s else sb
  else st

/-- The inner loop of `FindPortalSide` over one brush's sides (lines
816–853): bevel sides are skipped; the first side in the onnode's plane
family is the exact match — its orientation is checked by `Q_assert`, it
fills any empty `exactside` slot its generation flags allow, and the loop
breaks; every other side competes on the dot product between the portal
normal and its positive plane's normal against the shared `bestdot`. -/
def processSides (fam : ℕ) (n1 : Vec3) (j genOut genIn : Bool) :
    List BrushSide → FPSState → Except String FPSState
  | [], st => .ok st
  | s :: rest, st =>
    if s.bevel then processSides fam n1 j genOut genIn rest st
    else if s.planenumFam = fam then
      if s.planenumFlip ≠ !j then .error "Q_assert: (side.planenum & 1) == !j"
      else
        let st1 := if genOut then st.setExactIfUnset (!j) s else st
        let st2 := if genIn then st1.setExactIfUnset j s else st1
        .ok st2
    else
      processSides fam n1 j genOut genIn rest (dotStepState n1 j genOut genIn st s)

/-- One brush of the `FindPortalSide` scan (lines 805–815): compute the two
face-generation flags from the content policy and skip the brush when it
would generate no face at all. -/
def processBrush (g : GamePolicy) (vis fam : ℕ) (n1 : Vec3) (j : Bool)
    (br : RBrush) (st : FPSState) : Except String FPSState :=
  let genOut := g.generatesFace vis br.contents false
  let genIn := g.generatesFace vis br.contents true
  if ¬ (genOut = true ∨ genIn = true) then .ok st
  else processSides fam n1 j genOut genIn br.sides st

/-- Fold of `processBrush` over a brush list. -/
def processBrushList (g : GamePolicy) (vis fam : ℕ) (n1 : Vec3) (j : Bool) :
    List RBrush → FPSState → Except String FPSState
  | [], st => .ok st
  | b :: bs, st => do
    let st1 ← processBrush g vis fam n1 j b st
    processBrushList g vis fam n1 j bs st1

/-- `FindPortalSide` (src/unnamed/part_002 lines 782–872): resolve which
original brush side to use for texturing each side of the portal.  Returns
`none` when the strongest visible content transition is empty (the early
return that leaves the portal unresolved), otherwise the chosen pair
(`p->sides[0]`, `p->sides[1]`) after exact sides override best sides.  The
brushes of the side-0 node are scanned first, each node's list in reverse
map order. -/
def findPortalSide (g : GamePolicy) (p : RPortal) :
    Except String (Option (Option BrushSide × Option BrushSide)) := do
  let vis := g.visibleContents p.rnode0.contents p.rnode1.contents
  if g.isEmptyContents vis then
    .ok none
  else
    let st0 : FPSState := ⟨none, none, none, none, 0⟩
    let st1 ← processBrushList g vis p.onnodeFam p.onnodeNormal false
      p.rnode0.originalBrushes.reverse st0
    let st2 ← processBrushList g vis p.onnodeFam p.onnodeNormal true
      p.rnode1.originalBrushes.reverse st1
    let b0 := match st2.exactside0 with
      | some e => some e
      | none => st2.bestside0
    let b1 := match st2.exactside1 with
      | some e => some e
      | none => st2.bestside1
    .ok (some (b0, b1))

/-- Specification-side helper: the first non-bevel side of a side list that
lies in the given plane family — the side at which the inner loop of
`FindPortalSide` breaks. -/
def firstExactSide (fam : ℕ) : List BrushSide → Option BrushSide
  | [] => none
  | s :: rest =>
    if s.bevel then firstExactSide fam rest
    else if s.planenumFam = fam then some s
    else firstExactSide fam rest

/-- Specification-side helper: may a brush sitting on portal side `j`
record a side into selection slot `i`?  Outward faces go to slot `!j`,
inward faces to slot `j`. -/
def slotAllowed (g : GamePolicy) (vis : ℕ) (j i : Bool) (br : RBrush) :
    Bool :=
  (g.generatesFace vis br.contents false && (i != j)) ||
  (g.generatesFace vis br.contents true && (i == j))

/-- Specification-side helper: may a side of a brush with the given
generation flags, sitting on portal side `j`, be recorded into slot
`i`? -/
def exactAllowed (j genOut genIn i : Bool) : Bool :=
  (genOut && (i != j)) || (genIn && (i == j))

/-- Specification-side helper: the processing order of `FindPortalSide` —
the side-0 node's brushes in reverse declaration order, then the side-1
node's, each tagged with its portal side. -/
def brushScanOrder (n0 n1 : RNode) : List (Bool × RBrush) :=
  n0.originalBrushes.reverse.map (fun b => (false, b)) ++
  n1.originalBrushes.reverse.map (fun b => (true, b))

/-- Specification-side helper: the exact side that `FindPortalSide` records
in slot `i` — from the first brush in processing order whose generation
flags allow slot `i` and whose side list contains an exact planar match. -/
def exactChoice (g : GamePolicy) (vis fam : ℕ) (n0 n1 : RNode) (i : Bool) :
    Option BrushSide :=
  (brushScanOrder n0 n1).findSome?
    (fun jb =>
      if slotAllowed g vis jb.1 i jb.2 then firstExactSide fam jb.2.sides
      else none)

/-- One candidate record of the dot-product fallback scan: the portal
side its brush lies on, the brush's two face-generation flags, and the
side itself. -/
structure DotCand where
  j : Bool
  genOut : Bool
  genIn : Bool
  side : BrushSide
deriving DecidableEq, Repr

/-- The dot-product candidates contributed by one brush: all its
non-bevel sides, when the brush generates a face at all. -/
def brushCands (g : GamePolicy) (vis : ℕ) (j : Bool) (br : RBrush) :
    List DotCand :=
  if g.generatesFace vis br.contents false || g.generatesFace vis br.contents true
  then
    (br.sides.filter (fun s => !s.bevel)).map
      (fun s => ⟨j, g.generatesFace vis br.contents false,
        g.generatesFace vis br.contents true, s⟩)
  else []

/-- All dot-product candidates in the processing order of
`FindPortalSide`: side-0 node first, each node's brushes in reverse
declaration order. -/
def dotCandidates (g : GamePolicy) (vis : ℕ) (n0 n1 : RNode) :
    List DotCand :=
  (brushScanOrder n0 n1).bind (fun jb => brushCands g vis jb.1 jb.2)

/-- Specification-side shared-threshold scan step over the bare
(bestdot, side-0 choice, side-1 choice) triple. -/
def dotScanStep (nv : Vec3) (st : ℚ × Option BrushSide × Option BrushSide)
    (c : DotCand) : ℚ × Option BrushSide × Option BrushSide :=
  let dot := Vec3.dot nv c.side.positiveNormal
  if dot > st.1 then
    (dot,
     if (c.genOut = true ∧ c.j = true) ∨ (c.genIn = true ∧ c.j = false)
       then some c.side else st.2.1,
     if (c.genOut = true ∧ c.j = false) ∨ (c.genIn = true ∧ c.j = true)
       then some c.side else st.2.2)
  else st

/-- Specification-side dot-product scan: fold the shared-threshold step
over all candidates starting from a zero best dot and no selection. -/
def dotScan (nv : Vec3) (cands : List DotCand) :
    ℚ × Option BrushSide × Option BrushSide :=
  cands.foldl (dotScanStep nv) (0, none, none)

/-- The (bestdot, bestside[0], bestside[1]) projection of the
`FindPortalSide` selection state. -/
def tripleOf (st : FPSState) : ℚ × Option BrushSide × Option BrushSide :=
  (st.bestdot, st.bestside0, st.bestside1)

/-! ## Specification-side helpers for the area-flood bookkeeping -/

/-- One step of the first-occurrence deduplication: append the value
unless it was already seen. -/
def distStep (acc : List ℕ) (x : ℕ) : List ℕ :=
  if x ∈ acc then acc else acc ++ [x]

/-- The distinct values of a list, in first-occurrence order. -/
def firstDistincts (l : List ℕ) : List ℕ :=
  l.foldl distStep []

/-- One flood touch threaded through an (entity, warning-count) pair. -/
def floodStep (ew : APEntity × ℕ) (c : ℕ) : APEntity × ℕ :=
  ((floodTouchEntity ew.1 c).1, ew.2 + (floodTouchEntity ew.1 c).2)

/-- Fold a whole sequence of flood touches over an entity, accumulating
the warning count. -/
def floodTouchSeq (e : APEntity) (w : ℕ) (l : List ℕ) : APEntity × ℕ :=
  l.foldl floodStep (e, w)

/-- Decidable equality of `Except` results, for evaluating the embedded
functions at concrete inputs. -/
instance {ε α : Type} [DecidableEq ε] [DecidableEq α] :
    DecidableEq (Except ε α)
  | .error e1, .error e2 =>
    if h : e1 = e2 then isTrue (by rw [h]) else isFalse (by simp [h])
  | .error _, .ok _ => isFalse (by simp)
  | .ok _, .error _ => isFalse (by simp)
  | .ok a1, .ok a2 =>
    if h : a1 = a2 then isTrue (by rw [h]) else isFalse (by simp [h])

/-! ## Concrete instances used by witnesses and counterexamples -/

/-- A concrete sample content policy: content code 0 is empty, 1 is solid
(generating an outward face only), 2 is a liquid (generating both an
outward and an inward face), and the strongest transition is the larger
code. -/
def samplePolicy : GamePolicy where
  createSolid := 1
  isAnySolid := fun c => c == 1
  visibleContents := fun a b => max a b
  isEmptyContents := fun c => c == 0
  generatesFace := fun _ bc side =>
    if bc = 1 then !side else if bc = 2 then true else false

/-- A solid brush side lying exactly on plane family 7, facing away from
the portal's side-0 node. -/
def cxSideS : BrushSide := ⟨7, true, false, ⟨1, 0, 0⟩, 101⟩

/-- A water brush side lying exactly on plane family 7, facing away from
the portal's side-1 node. -/
def cxSideW : BrushSide := ⟨7, false, false, ⟨-1, 0, 0⟩, 102⟩

/-- The portal's side-0 node: solid contents, one solid brush declared
first (map index 1). -/
def cxNode0 : RNode := ⟨1, [⟨1, 1, [cxSideS]⟩]⟩

/-- The portal's side-1 node: water contents, one water brush declared
second (map index 2). -/
def cxNode1 : RNode := ⟨2, [⟨2, 2, [cxSideW]⟩]⟩

/-- A portal on plane family 7 between the solid node and the water
node. -/
def cxPortal : RPortal := ⟨7, ⟨1, 0, 0⟩, cxNode0, cxNode1⟩

/-- A brush side off the portal's plane family with dot 4/5 against the
portal normal. -/
def cx2SideA : BrushSide := ⟨9, false, false, ⟨4/5, 3/5, 0⟩, 201⟩

/-- A brush side off the portal's plane family with dot 3/5 against the
portal normal. -/
def cx2SideB : BrushSide := ⟨11, false, false, ⟨3/5, 4/5, 0⟩, 202⟩

/-- A content policy under which only solid brushes (code 1) generate a
face, outward only. -/
def cx2Policy : GamePolicy where
  createSolid := 1
  isAnySolid := fun c => c == 1
  visibleContents := fun a b => max a b
  isEmptyContents := fun c => c == 0
  generatesFace := fun _ bc side => bc == 1 && !side

/-- A portal on plane family 5 whose two nodes hold one solid brush each,
neither matching the portal's plane family. -/
def cx2Portal : RPortal :=
  ⟨5, ⟨1, 0, 0⟩, ⟨1, [⟨1, 1, [cx2SideA]⟩]⟩, ⟨1, [⟨1, 2, [cx2SideB]⟩]⟩⟩

/-- A leaf whose portal vertices lie far beyond a world extent of 100
units (for the bounds-degradation claims). -/
def farLeaf : BTree :=
  .bleaf [[⟨150, 0, 0⟩, ⟨200, 10, 0⟩, ⟨160, 0, 7⟩]] ⟨⟨0, 0, 0⟩, ⟨0, 0, 0⟩⟩

/-- An internal node whose two leaf children have no incident portals, so
both collapse to the node's stale mins corner and the node's raw union is
degenerate (for the bounds claims). -/
def degenTree : BTree :=
  .bnode ⟨⟨1, 1, 1⟩, ⟨3, 3, 3⟩⟩
    (.bleaf [] ⟨⟨0, 0, 0⟩, ⟨0, 0, 0⟩⟩)
    (.bleaf [] ⟨⟨0, 0, 0⟩, ⟨0, 0, 0⟩⟩)

/-! ## Theorems -/

section Theorems

attribute [local semireducible] Rat.mul Rat.add Rat.sub Rat.inv

/-- `boundsPost` case analysis: the zero-volume flag fires exactly on an
x-degenerate raw box, the degraded value is the parent's mins point, a
non-degenerate box passes through unchanged, and the unbounded flag
reports `minsBeyondExtent` of the final box. -/
lemma boundsPost_spec (we : ℚ) (pb raw : Aabb) :
    ((boundsPost we pb raw).2.1 = true ↔ raw.mins.x ≥ raw.maxs.x) ∧
    ((boundsPost we pb raw).2.1 = true →
      (boundsPost we pb raw).1 = ⟨pb.mins, pb.mins⟩) ∧
    ((boundsPost we pb raw).2.1 = false → (boundsPost we pb raw).1 = raw) ∧
    ((boundsPost we pb raw).2.2 = minsBeyondExtent we (boundsPost we pb raw).1) := by
  unfold boundsPost
  by_cases h : raw.mins.x ≥ raw.maxs.x <;> simp [h]

/-- Claim C9: for a portal between two leaves, the entity-flood predicate
permits traversal exactly when neither adjacent leaf's contents is
classified solid (and it ignores the side argument); in particular every
non-solid-to-non-solid portal is traversable. -/
theorem entityFlood_iff_not_solid (g : GamePolicy) (p : FPortal) (s : Bool)
    (h0 : p.fnode0.is_leaf = true) (h1 : p.fnode1.is_leaf = true) :
    Portal_EntityFlood g p s =
      .ok (!(g.isAnySolid p.fnode0.contents) &&
           !(g.isAnySolid p.fnode1.contents)) ∧
    (Portal_EntityFlood g p s = .ok true ↔
      g.isAnySolid p.fnode0.contents = false ∧
      g.isAnySolid p.fnode1.contents = false) := by
  have hmain : Portal_EntityFlood g p s =
      .ok (!(g.isAnySolid p.fnode0.contents) &&
           !(g.isAnySolid p.fnode1.contents)) := by
    unfold Portal_EntityFlood
    rw [h0, h1]
    cases hA : g.isAnySolid p.fnode0.contents <;>
      cases hB : g.isAnySolid p.fnode1.contents <;> simp [hA, hB]
  refine ⟨hmain, ?_⟩
  rw [hmain]
  cases hA : g.isAnySolid p.fnode0.contents <;>
    cases hB : g.isAnySolid p.fnode1.contents <;> simp

/-- Witness for C9: a concrete empty/liquid portal is traversable. -/
theorem entityFlood_iff_not_solid_witness :
    Portal_EntityFlood samplePolicy ⟨⟨true, 0⟩, ⟨true, 2⟩⟩ false = .ok true := by
  exact (entityFlood_iff_not_solid samplePolicy ⟨⟨true, 0⟩, ⟨true, 2⟩⟩ false
    rfl rfl).2.mpr ⟨rfl, rfl⟩

/-- Counterexample for C8: a leaf whose bounds lie beyond the world extent
(100) is warned about but its bounds are *not* degraded to any fallback —
they stay the computed vertex box, contradicting the claim that
out-of-extent bounds are degraded to a value collapsing to the parent's
bounds. -/
theorem calcTreeBounds_extent_counterexample :
    calcTreeBounds 100 ⟨⟨5, 5, 5⟩, ⟨9, 9, 9⟩⟩ farLeaf =
      .rleaf ⟨⟨150, 0, 0⟩, ⟨200, 10, 7⟩⟩ ⟨⟨150, 0, 0⟩, ⟨200, 10, 7⟩⟩
        false true ∧
    (⟨⟨150, 0, 0⟩, ⟨200, 10, 7⟩⟩ : Aabb) ≠ ⟨⟨5, 5, 5⟩, ⟨5, 5, 5⟩⟩ := by
  constructor <;> decide

/-- Claim C8 as amended: a node whose raw bounds are empty in the
x-direction is warned about and degraded to the single point at the
parent's (stale) mins corner; a node whose final bounds have a mins
component beyond the world extent receives exactly one warning and its
bounds are left unchanged by that check; the calculator is total — neither
condition aborts.  Quantifying over the parent bounds and the subtree
covers every node of a tree. -/
theorem calcTreeBounds_warn_behaviour (we : ℚ) (pb : Aabb) (t : BTree) :
    ((calcTreeBounds we pb t).zw = true ↔
      (calcTreeBounds we pb t).rawBounds.mins.x ≥
        (calcTreeBounds we pb t).rawBounds.maxs.x) ∧
    ((calcTreeBounds we pb t).zw = true →
      (calcTreeBounds we pb t).finalBounds = ⟨pb.mins, pb.mins⟩) ∧
    ((calcTreeBounds we pb t).zw = false →
      (calcTreeBounds we pb t).finalBounds = (calcTreeBounds we pb t).rawBounds) ∧
    ((calcTreeBounds we pb t).uw =
      minsBeyondExtent we (calcTreeBounds we pb t).finalBounds) := by
  cases t with
  | bleaf ws st =>
    have h := boundsPost_spec we pb (calcNodeBounds ws)
    simpa [calcTreeBounds, RBTree.zw, RBTree.uw, RBTree.rawBounds,
      RBTree.finalBounds] using h
  | bnode st c0 c1 =>
    have h := boundsPost_spec we pb
      (Aabb.unionBox (calcTreeBounds we st c0).finalBounds
        (calcTreeBounds we st c1).finalBounds)
    simpa [calcTreeBounds, RBTree.zw, RBTree.uw, RBTree.rawBounds,
      RBTree.finalBounds] using h

/-- Witness for C8 as amended, applied to the degenerate two-leaf tree:
the root's zero-volume warning fires and its bounds collapse to the
parent's mins point. -/
theorem calcTreeBounds_warn_behaviour_witness :
    (calcTreeBounds 1000 ⟨⟨5, 5, 5⟩, ⟨9, 9, 9⟩⟩ degenTree).zw = true ∧
    (calcTreeBounds 1000 ⟨⟨5, 5, 5⟩, ⟨9, 9, 9⟩⟩ degenTree).finalBounds =
      ⟨⟨5, 5, 5⟩, ⟨5, 5, 5⟩⟩ := by
  have h := calcTreeBounds_warn_behaviour 1000 ⟨⟨5, 5, 5⟩, ⟨9, 9, 9⟩⟩ degenTree
  have hz : (calcTreeBounds 1000 ⟨⟨5, 5, 5⟩, ⟨9, 9, 9⟩⟩ degenTree).zw = true := by
    decide
  exact ⟨hz, h.2.1 hz⟩

/-- Expanding a box by a list of points computes, per component, the fold
of `min`/`max` over the coordinates. -/
lemma foldl_addPoint_eq (l : List Vec3) : ∀ b : Aabb,
    l.foldl Aabb.addPoint b =
      ⟨⟨coordMin b.mins.x (l.map Vec3.x), coordMin b.mins.y (l.map Vec3.y),
        coordMin b.mins.z (l.map Vec3.z)⟩,
       ⟨coordMax b.maxs.x (l.map Vec3.x), coordMax b.maxs.y (l.map Vec3.y),
        coordMax b.maxs.z (l.map Vec3.z)⟩⟩ := by
  induction l with
  | nil => intro b; simp [coordMin, coordMax]
  | cons v rest ih =>
    intro b
    simp only [List.foldl_cons, List.map_cons]
    rw [ih]
    simp [Aabb.addPoint, Vec3.cmin, Vec3.cmax, coordMin, coordMax]

/-- `CalcNodeBounds` on a leaf with at least one portal vertex within the
sentinel range equals the componentwise min/max box of all the vertices. -/
lemma calcNodeBounds_eq_aabbSpec (ws : List Winding) (q : Vec3)
    (qs : List Vec3) (hjoin : ws.flatten = q :: qs)
    (hq : |q.x| ≤ 10^9 ∧ |q.y| ≤ 10^9 ∧ |q.z| ≤ 10^9) :
    calcNodeBounds ws = aabbSpec q qs := by
  unfold calcNodeBounds
  rw [← List.foldl_flatten, hjoin]
  simp only [List.foldl_cons]
  have hbox : Aabb.addPoint Aabb.emptyBox q = ⟨q, q⟩ := by
    obtain ⟨hx, hy, hz⟩ := hq
    rw [abs_le] at hx hy hz
    simp only [Aabb.addPoint, Aabb.emptyBox, Vec3.cmin, Vec3.cmax]
    congr 1 <;>
    · congr 1 <;> [skip; skip; skip] <;>
      first
        | exact min_eq_right (by linarith)
        | exact max_eq_right (by linarith)
  rw [hbox, foldl_addPoint_eq]
  rfl

/-- Counterexample for C7: with two portal-less leaf children, both
children degrade to the node's stale mins corner, the union of the
children's computed bounds is the degenerate point `(1,1,1)`, and the
node's own computed bounds are instead the parent's mins point
`(5,5,5)` — not the union of its children's bounds. -/
theorem calcTreeBounds_union_counterexample :
    (calcTreeBounds 1000 ⟨⟨5, 5, 5⟩, ⟨9, 9, 9⟩⟩ degenTree).finalBounds ≠
      Aabb.unionBox
        (calcTreeBounds 1000 ⟨⟨1, 1, 1⟩, ⟨3, 3, 3⟩⟩
          (.bleaf [] ⟨⟨0, 0, 0⟩, ⟨0, 0, 0⟩⟩)).finalBounds
        (calcTreeBounds 1000 ⟨⟨1, 1, 1⟩, ⟨3, 3, 3⟩⟩
          (.bleaf [] ⟨⟨0, 0, 0⟩, ⟨0, 0, 0⟩⟩)).finalBounds := by
  decide

/-- Claim C7 as amended: `CalcNodeBounds` computes a leaf's box as the
componentwise union of all vertices of all incident portal windings; an
internal node's raw box is the union of its two children's computed
(final) boxes, each child computed independently against the node's stale
bounds, and it becomes the node's bounds whenever it is not empty in the
x-direction (otherwise the degenerate fallback of C8 replaces it). -/
theorem calcTreeBounds_union_spec :
    (∀ (ws : List Winding) (q : Vec3) (qs : List Vec3),
      ws.flatten = q :: qs →
      |q.x| ≤ 10^9 ∧ |q.y| ≤ 10^9 ∧ |q.z| ≤ 10^9 →
      calcNodeBounds ws = aabbSpec q qs) ∧
    (∀ (we : ℚ) (pb st : Aabb) (c0 c1 : BTree),
      (calcTreeBounds we pb (.bnode st c0 c1)).rawBounds =
        Aabb.unionBox (calcTreeBounds we st c0).finalBounds
          (calcTreeBounds we st c1).finalBounds) ∧
    (∀ (we : ℚ) (pb st : Aabb) (c0 c1 : BTree),
      (Aabb.unionBox (calcTreeBounds we st c0).finalBounds
          (calcTreeBounds we st c1).finalBounds).mins.x <
        (Aabb.unionBox (calcTreeBounds we st c0).finalBounds
          (calcTreeBounds we st c1).finalBounds).maxs.x →
      (calcTreeBounds we pb (.bnode st c0 c1)).finalBounds =
        Aabb.unionBox (calcTreeBounds we st c0).finalBounds
          (calcTreeBounds we st c1).finalBounds) := by
  refine ⟨fun ws q qs hj hq => calcNodeBounds_eq_aabbSpec ws q qs hj hq,
    fun we pb st c0 c1 => ?_, fun we pb st c0 c1 hx => ?_⟩
  · simp [calcTreeBounds, RBTree.rawBounds]
  · have h := boundsPost_spec we pb
      (Aabb.unionBox (calcTreeBounds we st c0).finalBounds
        (calcTreeBounds we st c1).finalBounds)
    have hz : (boundsPost we pb
        (Aabb.unionBox (calcTreeBounds we st c0).finalBounds
          (calcTreeBounds we st c1).finalBounds)).2.1 = false := by
      rcases hb : (boundsPost we pb
          (Aabb.unionBox (calcTreeBounds we st c0).finalBounds
            (calcTreeBounds we st c1).finalBounds)).2.1 with _ | _
      · rfl
      · exact absurd (h.1.mp hb) (by simpa using hx)
    have := h.2.2.1 hz
    simpa [calcTreeBounds, RBTree.finalBounds] using this

/-- Witness for C7 as amended: a concrete leaf with one square portal
winding gets exactly the square's box, and a concrete internal node gets
the union of its children's boxes. -/
theorem calcTreeBounds_union_spec_witness :
    calcNodeBounds [[⟨0, 0, 0⟩, ⟨4, 0, 0⟩, ⟨4, 4, 2⟩, ⟨0, 4, 2⟩]] =
      aabbSpec ⟨0, 0, 0⟩ [⟨4, 0, 0⟩, ⟨4, 4, 2⟩, ⟨0, 4, 2⟩] ∧
    (calcTreeBounds 1000 ⟨⟨0, 0, 0⟩, ⟨0, 0, 0⟩⟩
        (.bnode ⟨⟨0, 0, 0⟩, ⟨0, 0, 0⟩⟩
          (.bleaf [[⟨0, 0, 0⟩, ⟨4, 0, 0⟩, ⟨4, 4, 2⟩, ⟨0, 4, 2⟩]]
            ⟨⟨0, 0, 0⟩, ⟨0, 0, 0⟩⟩)
          (.bleaf [[⟨4, 0, 0⟩, ⟨9, 0, 0⟩, ⟨9, 4, 2⟩, ⟨4, 4, 2⟩]]
            ⟨⟨0, 0, 0⟩, ⟨0, 0, 0⟩⟩))).finalBounds =
      ⟨⟨0, 0, 0⟩, ⟨9, 4, 2⟩⟩ := by
  constructor
  · exact calcTreeBounds_union_spec.1 _ ⟨0, 0, 0⟩ _ (by decide)
      (by norm_num)
  · have h := calcTreeBounds_union_spec.2.2 1000 ⟨⟨0, 0, 0⟩, ⟨0, 0, 0⟩⟩
      ⟨⟨0, 0, 0⟩, ⟨0, 0, 0⟩⟩
      (.bleaf [[⟨0, 0, 0⟩, ⟨4, 0, 0⟩, ⟨4, 4, 2⟩, ⟨0, 4, 2⟩]]
        ⟨⟨0, 0, 0⟩, ⟨0, 0, 0⟩⟩)
      (.bleaf [[⟨4, 0, 0⟩, ⟨9, 0, 0⟩, ⟨9, 4, 2⟩, ⟨4, 4, 2⟩]]
        ⟨⟨0, 0, 0⟩, ⟨0, 0, 0⟩⟩) (by decide)
    rw [h]
    decide

/-- Folding the deduplication step only ever appends to the
accumulator. -/
lemma distFold_prefix (l : List ℕ) : ∀ dacc : List ℕ,
    ∃ t, l.foldl distStep dacc = dacc ++ t := by
  induction l with
  | nil => intro dacc; exact ⟨[], by simp⟩
  | cons c rest ih =>
    intro dacc
    simp only [List.foldl_cons, distStep]
    by_cases hc : c ∈ dacc
    · simpa [hc] using ih dacc
    · obtain ⟨t, ht⟩ := ih (dacc ++ [c])
      refine ⟨[c] ++ t, ?_⟩
      simp only [hc, if_neg, ite_false, ht]
      simp

/-- Membership in the first two entries survives appending. -/
lemma mem_take2_append (c : ℕ) (dacc t : List ℕ) (h : c ∈ dacc.take 2) :
    c ∈ (dacc ++ t).take 2 := by
  rw [List.take_append_eq_append_take]
  exact List.mem_append_left _ h

/-- A value among the first two entries is the first or the second. -/
lemma mem_take2_eq (c : ℕ) (dacc : List ℕ) (h : c ∈ dacc.take 2) :
    c = (dacc.take 2).headD 0 ∨ c = ((dacc.take 2).drop 1).headD 0 := by
  cases dacc with
  | nil => simp at h
  | cons d0 dtl =>
    cases dtl with
    | nil =>
      simp only [List.take_succ_cons, List.take_nil] at h ⊢
      simp at h
      simp [h]
    | cons d1 dtl2 =>
      simp only [List.take_succ_cons, List.take_zero] at h ⊢
      rcases List.mem_cons.mp h with h | h
      · simp [h]
      · simp only [List.mem_cons, List.not_mem_nil, or_false] at h
        simp [h]

/-- Full characterisation of a flood-touch sequence, generalised over the
prefix of distinct areas already recorded in the entity: the entity ends
with the first two distinct area ids in discovery order, and one warning
is emitted for exactly those touches whose area is outside the first two
distinct ids. -/
lemma floodSeq_general (l : List ℕ) : ∀ (dacc : List ℕ) (e : APEntity) (w : ℕ),
    (∀ x ∈ l, x ≠ 0) → (∀ x ∈ dacc, x ≠ 0) →
    e.portalareas0 = (dacc.take 2).headD 0 →
    e.portalareas1 = ((dacc.take 2).drop 1).headD 0 →
    floodTouchSeq e w l =
      (⟨((l.foldl distStep dacc).take 2).headD 0,
        (((l.foldl distStep dacc).take 2).drop 1).headD 0⟩,
       w + (l.filter
          (fun x => decide (x ∉ (l.foldl distStep dacc).take 2))).length) := by
  induction l with
  | nil =>
    intro dacc e w _ _ h0 h1
    simp only [floodTouchSeq, List.foldl_nil, List.filter_nil,
      List.length_nil, Nat.add_zero]
    rw [Prod.mk.injEq]
    refine ⟨?_, rfl⟩
    cases e
    simp_all
  | cons c rest ih =>
    intro dacc e w hnz hdnz h0 h1
    have hc0 : c ≠ 0 := hnz c (List.mem_cons_self c rest)
    have hrz : ∀ x ∈ rest, x ≠ 0 := fun x hx => hnz x (List.mem_cons_of_mem c hx)
    have hseq : floodTouchSeq e w (c :: rest) =
        floodTouchSeq (floodStep (e, w) c).1 (floodStep (e, w) c).2 rest := rfl
    have hfold : (c :: rest).foldl distStep dacc =
        rest.foldl distStep (distStep dacc c) := rfl
    by_cases hA : c ∈ dacc.take 2
    · -- the area is already recorded: the touch is a silent no-op
      have hcd : c ∈ dacc := List.mem_of_mem_take hA
      have hstep : distStep dacc c = dacc := by simp [distStep, hcd]
      have hor : e.portalareas0 = c ∨ e.portalareas1 = c := by
        rcases mem_take2_eq c dacc hA with h | h
        · exact Or.inl (h0.trans h.symm)
        · exact Or.inr (h1.trans h.symm)
      have htouch : floodTouchEntity e c = (e, 0) := by
        unfold floodTouchEntity
        simp [hor]
      have hPc : c ∈ (rest.foldl distStep dacc).take 2 := by
        obtain ⟨t, ht⟩ := distFold_prefix rest dacc
        rw [ht]
        exact mem_take2_append c dacc t hA
      rw [hseq]
      simp only [floodStep, htouch, Nat.add_zero]
      rw [ih dacc e w hrz hdnz h0 h1]
      rw [hfold, hstep]
      simp [List.filter_cons, hPc]
    · by_cases hB : 2 ≤ dacc.length
      · -- both slots full and the area is new: warn once and discard
        cases dacc with
        | nil => simp at hB
        | cons d0 dtl =>
          cases dtl with
          | nil => simp at hB
          | cons d1 dtl2 =>
            simp only [List.take_succ_cons, List.take_zero, List.headD,
              List.drop] at h0 h1
            have hcd0 : c ≠ d0 := by
              intro hh; exact hA (by simp [hh])
            have hcd1 : c ≠ d1 := by
              intro hh; exact hA (by simp [hh])
            have hcd0' : d0 ≠ c := Ne.symm hcd0
            have hcd1' : d1 ≠ c := Ne.symm hcd1
            have hd1z : d1 ≠ 0 := hdnz d1 (by simp)
            have htouch : floodTouchEntity e c = (e, 1) := by
              unfold floodTouchEntity
              rw [h0, h1]
              simp [hcd0', hcd1', hd1z]
            have hdacc2 : ∃ dtl3, distStep (d0 :: d1 :: dtl2) c =
                d0 :: d1 :: dtl3 := by
              unfold distStep
              by_cases hm : c ∈ d0 :: d1 :: dtl2
              · exact ⟨dtl2, by simp [hm]⟩
              · exact ⟨dtl2 ++ [c], by simp [hm]⟩
            obtain ⟨dtl3, hd2⟩ := hdacc2
            have hdnz' : ∀ x ∈ distStep (d0 :: d1 :: dtl2) c, x ≠ 0 := by
              intro x hx
              unfold distStep at hx
              by_cases hm : c ∈ d0 :: d1 :: dtl2
              · simp only [hm, if_true] at hx
                exact hdnz x hx
              · simp only [hm, if_false, List.mem_append,
                  List.mem_singleton] at hx
                rcases hx with hx | hx
                · exact hdnz x hx
                · rw [hx]; exact hc0
            have hF : ∃ t2, rest.foldl distStep (distStep (d0 :: d1 :: dtl2) c) =
                d0 :: d1 :: t2 := by
              obtain ⟨t, ht⟩ := distFold_prefix rest (distStep (d0 :: d1 :: dtl2) c)
              rw [ht, hd2]
              exact ⟨dtl3 ++ t, by simp⟩
            obtain ⟨t2, ht2⟩ := hF
            have hPc : c ∉ (rest.foldl distStep
                (distStep (d0 :: d1 :: dtl2) c)).take 2 := by
              rw [ht2]
              simp [hcd0, hcd1]
            rw [hseq]
            simp only [floodStep, htouch]
            rw [ih (distStep (d0 :: d1 :: dtl2) c) e (w + 1) hrz hdnz'
              (by rw [hd2]; simpa using h0) (by rw [hd2]; simpa using h1)]
            rw [hfold]
            rw [Prod.mk.injEq]
            refine ⟨rfl, ?_⟩
            have hflt : (c :: rest).filter
                (fun x => decide (x ∉ (rest.foldl distStep
                  (distStep (d0 :: d1 :: dtl2) c)).take 2)) =
                c :: rest.filter
                  (fun x => decide (x ∉ (rest.foldl distStep
                    (distStep (d0 :: d1 :: dtl2) c)).take 2)) := by
              simp [List.filter_cons, hPc]
            rw [hflt, List.length_cons]
            omega
      · -- at most one slot used: record the new area silently
        cases dacc with
        | nil =>
          simp only [List.take_nil, List.headD, List.drop] at h0 h1
          have hc0' : (0 : ℕ) ≠ c := Ne.symm hc0
          have htouch : floodTouchEntity e c =
              ({ e with portalareas0 := c }, 0) := by
            unfold floodTouchEntity
            rw [h0, h1]
            simp [hc0']
          have hd2 : distStep [] c = [c] := by simp [distStep]
          have hF : ∃ t2, rest.foldl distStep (distStep [] c) = c :: t2 := by
            obtain ⟨t, ht⟩ := distFold_prefix rest (distStep [] c)
            rw [ht, hd2]
            exact ⟨t, rfl⟩
          obtain ⟨t2, ht2⟩ := hF
          have hPc : c ∈ (rest.foldl distStep (distStep [] c)).take 2 := by
            rw [ht2]
            simp
          rw [hseq]
          simp only [floodStep, htouch, Nat.add_zero]
          rw [ih (distStep [] c) { e with portalareas0 := c } w hrz
            (by rw [hd2]; intro x hx; simp at hx; rw [hx]; exact hc0)
            (by rw [hd2]; simp) (by rw [hd2]; simpa using h1)]
          rw [hfold]
          simp [List.filter_cons, hPc]
        | cons d0 dtl =>
          cases dtl with
          | cons d1 dtl2 => simp at hB
          | nil =>
            simp only [List.take_succ_cons, List.take_nil, List.headD,
              List.drop] at h0 h1
            have hcd0 : c ≠ d0 := by
              intro hh; exact hA (by simp [hh])
            have hcd0' : d0 ≠ c := Ne.symm hcd0
            have hc0' : (0 : ℕ) ≠ c := Ne.symm hc0
            have hd0z : d0 ≠ 0 := hdnz d0 (by simp)
            have htouch : floodTouchEntity e c =
                ({ e with portalareas1 := c }, 0) := by
              unfold floodTouchEntity
              rw [h0, h1]
              simp [hcd0', hc0', hd0z]
            have hd2 : distStep [d0] c = [d0, c] := by
              simp [distStep, hcd0]
            have hF : ∃ t2, rest.foldl distStep (distStep [d0] c) =
                d0 :: c :: t2 := by
              obtain ⟨t, ht⟩ := distFold_prefix rest (distStep [d0] c)
              rw [ht, hd2]
              exact ⟨t, rfl⟩
            obtain ⟨t2, ht2⟩ := hF
            have hPc : c ∈ (rest.foldl distStep (distStep [d0] c)).take 2 := by
              rw [ht2]
              simp
            rw [hseq]
            simp only [floodStep, htouch, Nat.add_zero]
            rw [ih (distStep [d0] c) { e with portalareas1 := c } w hrz
              (by rw [hd2]; intro x hx; simp at hx
                  rcases hx with hx | hx
                  · rw [hx]; exact hd0z
                  · rw [hx]; exact hc0)
              (by rw [hd2]; simpa using h0) (by rw [hd2]; simp)]
            rw [hfold]
            simp [List.filter_cons, hPc]

/-- Claim C4: flooding an area-portal entity records at most two distinct
area ids, in discovery order (the first two distinct ids of the touch
sequence); and a touch by a third distinct area when both slots are
already filled leaves the entity unchanged and emits exactly one
warning. -/
theorem areaportal_two_touches (l : List ℕ) (hnz : ∀ x ∈ l, x ≠ 0)
    (e : APEntity) (c : ℕ)
    (h0 : e.portalareas0 ≠ 0) (h1 : e.portalareas1 ≠ 0)
    (hc0 : c ≠ e.portalareas0) (hc1 : c ≠ e.portalareas1) :
    floodTouchSeq ⟨0, 0⟩ 0 l =
      (⟨((firstDistincts l).take 2).headD 0,
        (((firstDistincts l).take 2).drop 1).headD 0⟩,
       (l.filter (fun x => decide (x ∉ (firstDistincts l).take 2))).length) ∧
    floodTouchEntity e c = (e, 1) := by
  constructor
  · have h := floodSeq_general l [] ⟨0, 0⟩ 0 hnz (by simp) (by simp) (by simp)
    simpa [firstDistincts] using h
  · unfold floodTouchEntity
    have hc0' : e.portalareas0 ≠ c := Ne.symm hc0
    have hc1' : e.portalareas1 ≠ c := Ne.symm hc1
    simp [h0, h1, hc0', hc1']

/-- Witness for C4: flooding from areas 1, 2, 3 retains `(1, 2)` in
discovery order with exactly one warning, and the direct third touch on a
full entity is discarded with one warning. -/
theorem areaportal_two_touches_witness :
    floodTouchSeq ⟨0, 0⟩ 0 [1, 2, 3] = (⟨1, 2⟩, 1) ∧
    floodTouchEntity ⟨1, 2⟩ 3 = (⟨1, 2⟩, 1) := by
  have h := areaportal_two_touches [1, 2, 3] (by decide) ⟨1, 2⟩ 3
    (by decide) (by decide) (by decide) (by decide)
  refine ⟨?_, h.2⟩
  rw [h.1]
  decide

/-- If some index in the list fails, the portal collection loop fails. -/
lemma collectPortals_error (f : ℕ → Except String BuildPortal) :
    ∀ l : List ℕ, (∃ n ∈ l, ∃ msg, f n = .error msg) →
      ∃ msg, collectPortals f l = .error msg := by
  intro l
  induction l with
  | nil => rintro ⟨n, hn, _⟩; exact absurd hn (List.not_mem_nil n)
  | cons m rest ih =>
    rintro ⟨n, hn, msg, hmsg⟩
    rcases List.mem_cons.mp hn with h | h
    · subst h
      exact ⟨msg, by simp [collectPortals, hmsg, Bind.bind, Except.bind]⟩
    · cases hf : f m with
      | error msg2 =>
        exact ⟨msg2, by simp [collectPortals, hf, Bind.bind, Except.bind]⟩
      | ok p =>
        obtain ⟨msg3, h3⟩ := ih ⟨n, h, msg, hmsg⟩
        exact ⟨msg3, by simp [collectPortals, hf, h3, Bind.bind, Except.bind]⟩

/-- A successful portal collection has one output per index, in order. -/
lemma collectPortals_ok_spec (f : ℕ → Except String BuildPortal) :
    ∀ (l : List ℕ) (r : List BuildPortal), collectPortals f l = .ok r →
      r.length = l.length ∧
      ∀ (i a : ℕ), l[i]? = some a → ∃ p, r[i]? = some p ∧ f a = .ok p := by
  intro l
  induction l with
  | nil =>
    intro r hr
    simp only [collectPortals] at hr
    cases hr
    exact ⟨rfl, by intro i a ha; simp at ha⟩
  | cons m rest ih =>
    intro r hr
    cases hf : f m with
    | error msg =>
      rw [collectPortals] at hr
      simp [hf, Bind.bind, Except.bind] at hr
    | ok p =>
      cases hrest : collectPortals f rest with
      | error msg =>
        rw [collectPortals] at hr
        simp [hf, hrest, Bind.bind, Except.bind] at hr
      | ok ps =>
        rw [collectPortals] at hr
        simp only [hf, hrest, Bind.bind, Except.bind] at hr
        cases hr
        obtain ⟨hlen, hspec⟩ := ih ps hrest
        refine ⟨by simp [hlen], ?_⟩
        intro i a ha
        cases i with
        | zero =>
          simp at ha
          subst ha
          exact ⟨p, by simp, hf⟩
        | succ i2 =>
          simp only [List.getElem?_cons_succ] at ha ⊢
          exact hspec i2 a ha

/-- Every output of a successful portal collection is produced by `f` at
some index in the list. -/
lemma collectPortals_mem (f : ℕ → Except String BuildPortal) :
    ∀ (l : List ℕ) (r : List BuildPortal), collectPortals f l = .ok r →
      ∀ p ∈ r, ∃ n ∈ l, f n = .ok p := by
  intro l
  induction l with
  | nil =>
    intro r hr p hp
    simp only [collectPortals] at hr
    cases hr
    exact absurd hp (List.not_mem_nil p)
  | cons m rest ih =>
    intro r hr p hp
    cases hf : f m with
    | error msg =>
      rw [collectPortals] at hr
      simp [hf, Bind.bind, Except.bind] at hr
    | ok q =>
      cases hrest : collectPortals f rest with
      | error msg =>
        rw [collectPortals] at hr
        simp [hf, hrest, Bind.bind, Except.bind] at hr
      | ok ps =>
        rw [collectPortals] at hr
        simp only [hf, hrest, Bind.bind, Except.bind] at hr
        cases hr
        rcases List.mem_cons.mp hp with h | h
        · exact ⟨m, List.mem_cons_self m rest, h ▸ hf⟩
        · obtain ⟨n, hn, hfn⟩ := ih ps hrest p h
          exact ⟨n, List.mem_cons_of_mem m hn, hfn⟩

/-- `headnodePortal` fails exactly when the clipped winding vanishes, and
a successful portal carries the clipped winding with the outside node on
one side. -/
lemma headnodePortal_spec (bounds : Aabb) (eps : ℚ) (hid oid n : ℕ) :
    (headnodeClippedWinding bounds eps n = none →
      headnodePortal bounds eps hid oid n =
        .error "portal winding clipped away") ∧
    (∀ p, headnodePortal bounds eps hid oid n = .ok p →
      ∃ w, headnodeClippedWinding bounds eps n = some w ∧ p.winding = w ∧
        ((p.node0 = some oid ∧ p.node1 = some hid) ∨
         (p.node0 = some hid ∧ p.node1 = some oid))) := by
  constructor
  · intro h
    simp [headnodePortal, h]
  · intro p hp
    unfold headnodePortal at hp
    cases hw : headnodeClippedWinding bounds eps n with
    | none => rw [hw] at hp; cases hp
    | some w =>
      rw [hw] at hp
      by_cases hflip : canonicalFlips (headnodePlane bounds n)
      · simp only [hflip, if_true] at hp
        cases hp
        exact ⟨w, rfl, rfl, Or.inl ⟨rfl, rfl⟩⟩
      · simp only [hflip, if_false] at hp
        cases hp
        exact ⟨w, rfl, rfl, Or.inr ⟨rfl, rfl⟩⟩

/-- Claim C5: each of the six box portals is clipped against the other
five box planes; if any of the six windings is clipped away entirely the
compile aborts with a fatal error and no portal list is produced, and
otherwise exactly six portals are produced, carrying those clipped
windings. -/
theorem headnode_box_fatal (tb : Aabb) (hid oid : ℕ) (g : GamePolicy)
    (eps : ℚ) :
    ((∃ n, n < 6 ∧ headnodeClippedWinding (tb.grow SIDESPACE) eps n = none) →
      ∃ msg, makeHeadnodePortals tb hid oid g eps = .error msg) ∧
    (∀ r, makeHeadnodePortals tb hid oid g eps = .ok r →
      r.portals.length = 6 ∧
      ∀ n, n < 6 →
        ∃ w p, headnodeClippedWinding (tb.grow SIDESPACE) eps n = some w ∧
          r.portals[n]? = some p ∧ p.winding = w) := by
  constructor
  · rintro ⟨n, hn6, hnone⟩
    have herr : ∃ msg, collectPortals
        (headnodePortal (tb.grow SIDESPACE) eps hid oid) (List.range 6) =
          .error msg := by
      refine collectPortals_error _ _ ⟨n, List.mem_range.mpr hn6,
        "portal winding clipped away",
        (headnodePortal_spec (tb.grow SIDESPACE) eps hid oid n).1 hnone⟩
    obtain ⟨msg, hmsg⟩ := herr
    exact ⟨msg, by simp [makeHeadnodePortals, hmsg, Bind.bind, Except.bind]⟩
  · intro r hr
    unfold makeHeadnodePortals at hr
    cases hc : collectPortals
        (headnodePortal (tb.grow SIDESPACE) eps hid oid) (List.range 6) with
    | error msg =>
      rw [hc] at hr
      simp [Bind.bind, Except.bind] at hr
    | ok ps =>
      rw [hc] at hr
      simp only [Bind.bind, Except.bind] at hr
      cases hr
      obtain ⟨hlen, hspec⟩ := collectPortals_ok_spec _ _ _ hc
      refine ⟨by simpa using hlen, ?_⟩
      intro n hn6
      obtain ⟨p, hp, hfp⟩ := hspec n n (by simp [hn6])
      obtain ⟨w, hw, hwind, _⟩ :=
        (headnodePortal_spec (tb.grow SIDESPACE) eps hid oid n).2 p hfp
      exact ⟨w, p, hw, hp, hwind⟩

/-- Witness for C5: a tree box with inverted x-extent leaves the first box
winding clipped away, so the compile aborts. -/
theorem headnode_box_fatal_witness :
    ∃ msg, makeHeadnodePortals ⟨⟨0, 0, 0⟩, ⟨-100, 64, 64⟩⟩ 100 999
      samplePolicy (1/10000) = .error msg := by
  exact (headnode_box_fatal ⟨⟨0, 0, 0⟩, ⟨-100, 64, 64⟩⟩ 100 999
    samplePolicy (1/10000)).1 ⟨0, by norm_num, by decide⟩

/-- Claim C10: `makeHeadnodePortals` marks the synthetic outside node as a
solid leaf before building the box portals, every produced portal has the
outside node on one side, and consequently — whenever the game policy
classifies its own synthetic solid contents as solid — the entity-flood
predicate rejects every portal adjacent to the outside node, so the flood
can never escape through a headnode portal. -/
theorem outside_node_blocks_flood (tb : Aabb) (hid oid : ℕ)
    (g : GamePolicy) (eps : ℚ) (r : HeadnodeResult)
    (hok : makeHeadnodePortals tb hid oid g eps = .ok r)
    (hsolid : g.isAnySolid g.createSolid = true) :
    r.outsideNode.is_leaf = true ∧
    r.outsideNode.contents = g.createSolid ∧
    (∀ p ∈ r.portals,
      (p.node0 = some oid ∧ p.node1 = some hid) ∨
      (p.node0 = some hid ∧ p.node1 = some oid)) ∧
    (∀ (m : FNode) (s : Bool), m.is_leaf = true →
      Portal_EntityFlood g ⟨r.outsideNode, m⟩ s = .ok false ∧
      Portal_EntityFlood g ⟨m, r.outsideNode⟩ s = .ok false) := by
  unfold makeHeadnodePortals at hok
  cases hc : collectPortals
      (headnodePortal (tb.grow SIDESPACE) eps hid oid) (List.range 6) with
  | error msg =>
    rw [hc] at hok
    simp [Bind.bind, Except.bind] at hok
  | ok ps =>
    rw [hc] at hok
    simp only [Bind.bind, Except.bind] at hok
    cases hok
    refine ⟨rfl, rfl, ?_, ?_⟩
    · intro p hp
      obtain ⟨n, _, hfn⟩ := collectPortals_mem _ _ _ hc p hp
      obtain ⟨_, _, _, hnodes⟩ :=
        (headnodePortal_spec (tb.grow SIDESPACE) eps hid oid n).2 p hfn
      exact hnodes
    · intro m s hm
      constructor <;>
      · unfold Portal_EntityFlood
        simp [hm, hsolid]

/-- Witness for C10: with the sample policy and a concrete box, the
outside node is a solid leaf and a concrete leaf portal against it is
rejected by the entity flood. -/
theorem outside_node_blocks_flood_witness :
    ∃ r, makeHeadnodePortals ⟨⟨0, 0, 0⟩, ⟨64, 64, 64⟩⟩ 100 999
        samplePolicy (1/10000) = .ok r ∧
      r.outsideNode.is_leaf = true ∧
      r.outsideNode.contents = samplePolicy.createSolid ∧
      Portal_EntityFlood samplePolicy ⟨r.outsideNode, ⟨true, 0⟩⟩ false =
        .ok false := by
  have hisok : (makeHeadnodePortals ⟨⟨0, 0, 0⟩, ⟨64, 64, 64⟩⟩ 100 999
      samplePolicy (1/10000)).isOk = true := by decide
  cases hok : makeHeadnodePortals ⟨⟨0, 0, 0⟩, ⟨64, 64, 64⟩⟩ 100 999
      samplePolicy (1/10000) with
  | error msg =>
    rw [hok] at hisok
    simp [Except.isOk, Except.toBool] at hisok
  | ok r =>
    have h := outside_node_blocks_flood ⟨⟨0, 0, 0⟩, ⟨64, 64, 64⟩⟩ 100 999
      samplePolicy (1/10000) r hok rfl
    exact ⟨r, rfl, h.1, h.2.1, (h.2.2.2 ⟨true, 0⟩ false rfl).1⟩

/-- `relinkTo` changes only the node references: plane, onnode, winding
and identity are untouched. -/
lemma relinkTo_fields (p : BuildPortal) (nid c : ℕ) :
    (relinkTo p nid c).winding = p.winding ∧
    (relinkTo p nid c).pid = p.pid ∧
    (relinkTo p nid c).plane = p.plane ∧
    (relinkTo p nid c).onnode = p.onnode := by
  unfold relinkTo
  by_cases h : p.node0 = some nid <;> simp [h]

/-- A winding with no vertex strictly behind the plane is returned whole
on the front side by the two-sided clip (with `keepon` set). -/
lemma clipBoth_all_front (pl : Plane) (eps : ℚ) (w : Winding)
    (h : ∀ v ∈ w, pl.distTo v ≥ -eps) :
    Winding.clipBoth w pl eps true = (some w, none) := by
  have hb : Winding.hasBack w pl eps = false := by
    rw [Winding.hasBack, List.any_eq_false]
    intro v hv
    have hd := h v hv
    have h2 : ¬ pl.distTo v < -eps := by linarith
    by_cases h1 : pl.distTo v > eps <;> simp [Winding.ptSide, h1, h2]
  unfold Winding.clipBoth
  by_cases hf : Winding.hasFront w pl eps <;> simp [hb, hf]

/-- A winding with no vertex strictly in front and some vertex strictly
behind is returned whole on the back side by the two-sided clip. -/
lemma clipBoth_all_back (pl : Plane) (eps : ℚ) (w : Winding)
    (heps : 0 ≤ eps)
    (h : ∀ v ∈ w, pl.distTo v ≤ eps)
    (hx : ∃ v ∈ w, pl.distTo v < -eps) :
    Winding.clipBoth w pl eps true = (none, some w) := by
  have hf : Winding.hasFront w pl eps = false := by
    rw [Winding.hasFront, List.any_eq_false]
    intro v hv
    have hd := h v hv
    have h1 : ¬ pl.distTo v > eps := by linarith
    by_cases h2 : pl.distTo v < -eps <;> simp [Winding.ptSide, h1, h2]
  have hb : Winding.hasBack w pl eps = true := by
    obtain ⟨v, hv, hvd⟩ := hx
    rw [Winding.hasBack, List.any_eq_true]
    refine ⟨v, hv, ?_⟩
    have h1 : ¬ pl.distTo v > eps := by linarith
    simp [Winding.ptSide, h1, hvd]
  unfold Winding.clipBoth
  simp [hf, hb]

/-- The tiny-filtered fragments of a winding entirely on the front side:
the whole winding goes front, nothing back. -/
lemma splitFrags_whole_front (plane : Plane) (w : Winding)
    (hfr : ∀ v ∈ w, plane.distTo v ≥ -SPLIT_WINDING_EPSILON)
    (hnt : WindingIsTiny w tinyDefault = false) :
    splitFrags plane w = (some w, none) := by
  unfold splitFrags
  rw [clipBoth_all_front plane SPLIT_WINDING_EPSILON w hfr]
  simp [hnt]

/-- The tiny-filtered fragments of a winding entirely on the back side
(with at least one vertex strictly behind): the whole winding goes back,
nothing front. -/
lemma splitFrags_whole_back (plane : Plane) (w : Winding)
    (hba : ∀ v ∈ w, plane.distTo v ≤ SPLIT_WINDING_EPSILON)
    (hx : ∃ v ∈ w, plane.distTo v < -SPLIT_WINDING_EPSILON)
    (hnt : WindingIsTiny w tinyDefault = false) :
    splitFrags plane w = (none, some w) := by
  unfold splitFrags
  rw [clipBoth_all_back plane SPLIT_WINDING_EPSILON w (by norm_num [SPLIT_WINDING_EPSILON]) hba hx]
  simp [hnt]

/-- A fragment surviving the tiny filter is never tiny. -/
lemma splitFrags_nontiny (plane : Plane) (w : Winding) :
    (∀ fv, (splitFrags plane w).1 = some fv →
      WindingIsTiny fv tinyDefault = false) ∧
    (∀ bv, (splitFrags plane w).2 = some bv →
      WindingIsTiny bv tinyDefault = false) := by
  unfold splitFrags
  constructor
  · intro fv hfv
    cases hcb : (Winding.clipBoth w plane SPLIT_WINDING_EPSILON true).1 with
    | none => simp [hcb] at hfv
    | some v =>
      simp only [hcb] at hfv
      by_cases ht : WindingIsTiny v tinyDefault = true
      · simp [ht] at hfv
      · simp [ht] at hfv
        rw [← hfv]
        exact Bool.eq_false_iff.mpr ht
  · intro bv hbv
    cases hcb : (Winding.clipBoth w plane SPLIT_WINDING_EPSILON true).2 with
    | none => simp [hcb] at hbv
    | some v =>
      simp only [hcb] at hbv
      by_cases ht : WindingIsTiny v tinyDefault = true
      · simp [ht] at hbv
      · simp [ht] at hbv
        rw [← hbv]
        exact Bool.eq_false_iff.mpr ht

/-- Main induction for `SplitNodePortals`: it succeeds on any fully linked
input list and its outputs satisfy identity bookkeeping, tiny accounting
and per-portal routing. -/
lemma split_aux (plane : Plane) (f b nid : ℕ) :
    ∀ (ps : List BuildPortal) (k : ℕ),
    (∀ p ∈ ps, p.node0 = some nid ∨ p.node1 = some nid) →
    (ps.map BuildPortal.pid).Nodup →
    (∀ p ∈ ps, p.pid < k) →
    ∃ r : SplitResult, splitNodePortals plane f b nid ps k = .ok r ∧
      k ≤ r.nextId ∧
      (∀ q ∈ r.front, q.pid ∈ ps.map BuildPortal.pid) ∧
      (∀ q ∈ r.back, q.pid ∈ ps.map BuildPortal.pid ∨
        (k ≤ q.pid ∧ q.pid < r.nextId)) ∧
      r.tinyDelta = (ps.map (fun p => tinyDropCount plane p.winding)).sum ∧
      (∀ p ∈ ps, routedAsSplit plane nid f b p r) ∧
      (∀ q ∈ r.front, ∀ q' ∈ r.back, q.pid ≠ q'.pid) := by
  intro ps
  induction ps with
  | nil =>
    intro k _ _ _
    exact ⟨⟨[], [], 0, k⟩, rfl, le_refl k, by simp, by simp, by simp,
      by simp, by simp⟩
  | cons p ps ih =>
    intro k hlink hnodup hlt
    have hp : p.node0 = some nid ∨ p.node1 = some nid :=
      hlink p (List.mem_cons_self p ps)
    have hlink' : ∀ q ∈ ps, q.node0 = some nid ∨ q.node1 = some nid :=
      fun q hq => hlink q (List.mem_cons_of_mem p hq)
    rw [List.map_cons, List.nodup_cons] at hnodup
    obtain ⟨hpnotin, hnodup'⟩ := hnodup
    have hlt' : ∀ q ∈ ps, q.pid < k :=
      fun q hq => hlt q (List.mem_cons_of_mem p hq)
    have hplt : p.pid < k := hlt p (List.mem_cons_self p ps)
    rcases hsf : splitFrags plane p.winding with ⟨fw, bw⟩
    cases fw with
    | none =>
      cases bw with
      | none =>
        -- both fragments gone: the portal is dropped
        obtain ⟨r, hr, hknext, hfp, hbp, htiny, hroute, hdisj⟩ :=
          ih k hlink' hnodup' hlt'
        refine ⟨⟨r.front, r.back,
          tinyDropCount plane p.winding + r.tinyDelta, r.nextId⟩, ?_,
          hknext, ?_, ?_, ?_, ?_, hdisj⟩
        · simp only [splitNodePortals]
          rw [if_neg (not_not_intro hp), hsf, hr]
          rfl
        · intro q hq
          simp only [List.map_cons, List.mem_cons]
          exact Or.inr (hfp q hq)
        · intro q hq
          rcases hbp q hq with hin | hrange
          · refine Or.inl ?_
            simp only [List.map_cons, List.mem_cons]
            exact Or.inr hin
          · exact Or.inr hrange
        · simp only [List.map_cons, List.sum_cons, htiny]
        · intro p' hp'
          rcases List.mem_cons.mp hp' with hh | hh
          · subst hh
            refine ⟨fun _ => ⟨?_, ?_⟩, ?_, ?_, ?_⟩
            · intro hmem
              rw [List.mem_map] at hmem
              obtain ⟨q, hq, hqe⟩ := hmem
              exact hpnotin (hqe ▸ hfp q hq)
            · intro hmem
              rw [List.mem_map] at hmem
              obtain ⟨q, hq, hqe⟩ := hmem
              rcases hbp q hq with hin | hrange
              · exact hpnotin (hqe ▸ hin)
              · omega
            · intro fv heq
              exact absurd (hsf.symm.trans heq) (by simp)
            · intro bv heq
              exact absurd (hsf.symm.trans heq) (by simp)
            · intro fv bv heq
              exact absurd (hsf.symm.trans heq) (by simp)
          · exact hroute p' hh
      | some bv =>
        -- survives only behind: relinked to the back child, winding kept
        obtain ⟨r, hr, hknext, hfp, hbp, htiny, hroute, hdisj⟩ :=
          ih k hlink' hnodup' hlt'
        refine ⟨⟨r.front, relinkTo p nid b :: r.back,
          tinyDropCount plane p.winding + r.tinyDelta, r.nextId⟩, ?_,
          hknext, ?_, ?_, ?_, ?_, ?_⟩
        · simp only [splitNodePortals]
          rw [if_neg (not_not_intro hp), hsf, hr]
          rfl
        · intro q hq
          simp only [List.map_cons, List.mem_cons]
          exact Or.inr (hfp q hq)
        · intro q hq
          rcases List.mem_cons.mp hq with hh | hh
          · subst hh
            exact Or.inl (by
              simp only [List.map_cons, List.mem_cons]
              exact Or.inl (relinkTo_fields p nid b).2.1)
          · rcases hbp q hh with hin | hrange
            · refine Or.inl ?_
              simp only [List.map_cons, List.mem_cons]
              exact Or.inr hin
            · exact Or.inr hrange
        · simp only [List.map_cons, List.sum_cons, htiny]
        · intro p' hp'
          rcases List.mem_cons.mp hp' with hh | hh
          · subst hh
            refine ⟨?_, ?_, ?_, ?_⟩
            · intro heq
              exact absurd (hsf.symm.trans heq) (by simp)
            · intro fv heq
              exact absurd (hsf.symm.trans heq) (by simp)
            · intro bv' _
              exact List.mem_cons_self _ _
            · intro fv bv' heq
              exact absurd (hsf.symm.trans heq) (by simp)
          · have hro := hroute p' hh
            have hp'in : p'.pid ∈ ps.map BuildPortal.pid :=
              List.mem_map.mpr ⟨p', hh, rfl⟩
            have hp'ne : p'.pid ≠ p.pid := fun he => hpnotin (he ▸ hp'in)
            refine ⟨?_, ?_, ?_, ?_⟩
            · intro heq
              obtain ⟨hnf, hnb⟩ := hro.1 heq
              refine ⟨hnf, ?_⟩
              intro hmem
              rw [List.map_cons, List.mem_cons,
                (relinkTo_fields p nid b).2.1] at hmem
              rcases hmem with hmem | hmem
              · exact hp'ne hmem
              · exact hnb hmem
            · intro fv heq
              exact hro.2.1 fv heq
            · intro bv' heq
              exact List.mem_cons_of_mem _ (hro.2.2.1 bv' heq)
            · intro fv bv' heq
              obtain ⟨hf1, kb, hf2⟩ := hro.2.2.2 fv bv' heq
              exact ⟨hf1, kb, List.mem_cons_of_mem _ hf2⟩
        · intro q hq q' hq'
          rcases List.mem_cons.mp hq' with hh | hh
          · have hqe : q'.pid = p.pid := by
              rw [hh]; exact (relinkTo_fields p nid b).2.1
            rw [hqe]
            exact fun he => hpnotin (he ▸ hfp q hq)
          · exact hdisj q hq q' hh
    | some fv =>
      cases bw with
      | none =>
        -- survives only in front: relinked to the front child, winding kept
        obtain ⟨r, hr, hknext, hfp, hbp, htiny, hroute, hdisj⟩ :=
          ih k hlink' hnodup' hlt'
        refine ⟨⟨relinkTo p nid f :: r.front, r.back,
          tinyDropCount plane p.winding + r.tinyDelta, r.nextId⟩, ?_,
          hknext, ?_, ?_, ?_, ?_, ?_⟩
        · simp only [splitNodePortals]
          rw [if_neg (not_not_intro hp), hsf, hr]
          rfl
        · intro q hq
          rcases List.mem_cons.mp hq with hh | hh
          · subst hh
            simp only [List.map_cons, List.mem_cons]
            exact Or.inl (relinkTo_fields p nid f).2.1
          · simp only [List.map_cons, List.mem_cons]
            exact Or.inr (hfp q hh)
        · intro q hq
          rcases hbp q hq with hin | hrange
          · refine Or.inl ?_
            simp only [List.map_cons, List.mem_cons]
            exact Or.inr hin
          · exact Or.inr hrange
        · simp only [List.map_cons, List.sum_cons, htiny]
        · intro p' hp'
          rcases List.mem_cons.mp hp' with hh | hh
          · subst hh
            refine ⟨?_, ?_, ?_, ?_⟩
            · intro heq
              exact absurd (hsf.symm.trans heq) (by simp)
            · intro fv' _
              exact List.mem_cons_self _ _
            · intro bv' heq
              exact absurd (hsf.symm.trans heq) (by simp)
            · intro fv' bv' heq
              exact absurd (hsf.symm.trans heq) (by simp)
          · have hro := hroute p' hh
            have hp'in : p'.pid ∈ ps.map BuildPortal.pid :=
              List.mem_map.mpr ⟨p', hh, rfl⟩
            have hp'ne : p'.pid ≠ p.pid := fun he => hpnotin (he ▸ hp'in)
            refine ⟨?_, ?_, ?_, ?_⟩
            · intro heq
              obtain ⟨hnf, hnb⟩ := hro.1 heq
              refine ⟨?_, hnb⟩
              intro hmem
              rw [List.map_cons, List.mem_cons,
                (relinkTo_fields p nid f).2.1] at hmem
              rcases hmem with hmem | hmem
              · exact hp'ne hmem
              · exact hnf hmem
            · intro fv' heq
              exact List.mem_cons_of_mem _ (hro.2.1 fv' heq)
            · intro bv' heq
              exact hro.2.2.1 bv' heq
            · intro fv' bv' heq
              obtain ⟨hf1, kb, hf2⟩ := hro.2.2.2 fv' bv' heq
              exact ⟨List.mem_cons_of_mem _ hf1, kb, hf2⟩
        · intro q hq q' hq'
          rcases List.mem_cons.mp hq with hh | hh
          · have hqe : q.pid = p.pid := by
              rw [hh]; exact (relinkTo_fields p nid f).2.1
            rw [hqe]
            rcases hbp q' hq' with hin | hrange
            · exact fun he => hpnotin (he ▸ hin)
            · omega
          · exact hdisj q hh q' hq'
      | some bv =>
        -- straddling: split into the two fragments, back on a fresh portal
        obtain ⟨r, hr, hknext, hfp, hbp, htiny, hroute, hdisj⟩ :=
          ih (k + 1) hlink' hnodup' (fun q hq => Nat.lt_succ_of_lt (hlt' q hq))
        refine ⟨⟨relinkTo { p with winding := fv } nid f :: r.front,
          { relinkTo p nid b with winding := bv, pid := k } :: r.back,
          tinyDropCount plane p.winding + r.tinyDelta, r.nextId⟩, ?_,
          (show k ≤ r.nextId by omega), ?_, ?_, ?_, ?_, ?_⟩
        · simp only [splitNodePortals]
          rw [if_neg (not_not_intro hp), hsf, hr]
          rfl
        · intro q hq
          rcases List.mem_cons.mp hq with hh | hh
          · subst hh
            simp only [List.map_cons, List.mem_cons]
            exact Or.inl (relinkTo_fields { p with winding := fv } nid f).2.1
          · simp only [List.map_cons, List.mem_cons]
            exact Or.inr (hfp q hh)
        · intro q hq
          rcases List.mem_cons.mp hq with hh | hh
          · subst hh
            exact Or.inr ⟨le_refl k, show k < r.nextId by omega⟩
          · rcases hbp q hh with hin | hrange
            · refine Or.inl ?_
              simp only [List.map_cons, List.mem_cons]
              exact Or.inr hin
            · exact Or.inr ⟨(by omega : k ≤ q.pid), hrange.2⟩
        · simp only [List.map_cons, List.sum_cons, htiny]
        · intro p' hp'
          rcases List.mem_cons.mp hp' with hh | hh
          · subst hh
            refine ⟨?_, ?_, ?_, ?_⟩
            · intro heq
              exact absurd (hsf.symm.trans heq) (by simp)
            · intro fv' heq
              exact absurd (hsf.symm.trans heq) (by simp)
            · intro bv' heq
              exact absurd (hsf.symm.trans heq) (by simp)
            · intro fv' bv' heq
              have hinj := hsf.symm.trans heq
              rw [Prod.mk.injEq] at hinj
              obtain ⟨hfv', hbv'⟩ := hinj
              rw [Option.some.injEq] at hfv' hbv'
              refine ⟨?_, k, ?_⟩
              · rw [← hfv']
                exact List.mem_cons_self _ _
              · rw [← hbv']
                exact List.mem_cons_self _ _
          · have hro := hroute p' hh
            have hp'in : p'.pid ∈ ps.map BuildPortal.pid :=
              List.mem_map.mpr ⟨p', hh, rfl⟩
            have hp'ne : p'.pid ≠ p.pid := fun he => hpnotin (he ▸ hp'in)
            have hp'nek : p'.pid ≠ k := fun he2 => by
              have := hlt' p' hh
              omega
            refine ⟨?_, ?_, ?_, ?_⟩
            · intro heq
              obtain ⟨hnf, hnb⟩ := hro.1 heq
              constructor
              · intro hmem
                rw [List.map_cons, List.mem_cons,
                  (relinkTo_fields { p with winding := fv } nid f).2.1] at hmem
                rcases hmem with hmem | hmem
                · exact hp'ne hmem
                · exact hnf hmem
              · intro hmem
                rw [List.map_cons, List.mem_cons] at hmem
                rcases hmem with hmem | hmem
                · exact hp'nek hmem
                · exact hnb hmem
            · intro fv' heq
              exact List.mem_cons_of_mem _ (hro.2.1 fv' heq)
            · intro bv' heq
              exact List.mem_cons_of_mem _ (hro.2.2.1 bv' heq)
            · intro fv' bv' heq
              obtain ⟨hf1, kb, hf2⟩ := hro.2.2.2 fv' bv' heq
              exact ⟨List.mem_cons_of_mem _ hf1, kb,
                List.mem_cons_of_mem _ hf2⟩
        · intro q hq q' hq'
          rcases List.mem_cons.mp hq with hh | hh
          · have hqe : q.pid = p.pid := by
              rw [hh]
              exact (relinkTo_fields { p with winding := fv } nid f).2.1
            rcases List.mem_cons.mp hq' with hh' | hh'
            · rw [hqe, hh']
              show p.pid ≠ k
              omega
            · rw [hqe]
              rcases hbp q' hh' with hin | hrange
              · exact fun he => hpnotin (he ▸ hin)
              · omega
          · rcases List.mem_cons.mp hq' with hh' | hh'
            · rw [hh']
              show q.pid ≠ k
              have := hfp q hh
              rw [List.mem_map] at this
              obtain ⟨p2, hp2, hp2e⟩ := this
              have := hlt' p2 hp2
              omega
            · exact hdisj q hh q' hh'

/-- Claim C3: `SplitNodePortals` sends each boundary portal lying entirely
on one side of the split plane (with its non-tiny winding untouched —
`relinkTo` preserves the winding) to the corresponding child's list;
splits each straddling portal into a front fragment kept on the portal
and a back fragment on a fresh portal relinked to the back child; drops
and counts every tiny fragment (`tinyDelta` equals the total of per-portal
tiny drops); and returns two lists no portal object belongs to both of. -/
theorem split_node_portals_routing (plane : Plane) (f b nid : ℕ)
    (ps : List BuildPortal) (k : ℕ)
    (hlink : ∀ p ∈ ps, p.node0 = some nid ∨ p.node1 = some nid)
    (hnodup : (ps.map BuildPortal.pid).Nodup)
    (hlt : ∀ p ∈ ps, p.pid < k) :
    ∃ r : SplitResult, splitNodePortals plane f b nid ps k = .ok r ∧
      (∀ p ∈ ps, routedAsSplit plane nid f b p r) ∧
      r.tinyDelta = (ps.map (fun p => tinyDropCount plane p.winding)).sum ∧
      (∀ q ∈ r.front, ∀ q' ∈ r.back, q.pid ≠ q'.pid) ∧
      (∀ (q : BuildPortal) (c : ℕ), (relinkTo q nid c).winding = q.winding) ∧
      (∀ w : Winding,
        (∀ v ∈ w, Plane.distTo plane v ≥ -SPLIT_WINDING_EPSILON) →
        WindingIsTiny w tinyDefault = false →
        splitFrags plane w = (some w, none)) ∧
      (∀ w : Winding,
        (∀ v ∈ w, Plane.distTo plane v ≤ SPLIT_WINDING_EPSILON) →
        (∃ v ∈ w, Plane.distTo plane v < -SPLIT_WINDING_EPSILON) →
        WindingIsTiny w tinyDefault = false →
        splitFrags plane w = (none, some w)) := by
  obtain ⟨r, hr, _, _, _, htiny, hroute, hdisj⟩ :=
    split_aux plane f b nid ps k hlink hnodup hlt
  exact ⟨r, hr, hroute, htiny, hdisj,
    fun q c => (relinkTo_fields q nid c).1,
    fun w h1 h2 => splitFrags_whole_front plane w h1 h2,
    fun w h1 h2 h3 => splitFrags_whole_back plane w h1 h2 h3⟩

/-- Witness for C3: splitting one concrete straddling portal succeeds with
no tiny drop and pid-disjoint output lists. -/
theorem split_node_portals_routing_witness :
    ∃ r : SplitResult,
      splitNodePortals ⟨⟨1, 0, 0⟩, 2⟩ 11 12 10
        [⟨⟨⟨0, 0, 1⟩, 0⟩, some 9, some 10, some 20,
          [⟨0, 0, 0⟩, ⟨4, 0, 0⟩, ⟨4, 4, 0⟩, ⟨0, 4, 0⟩], 0⟩] 1 = .ok r ∧
      r.tinyDelta = 0 ∧
      (∀ q ∈ r.front, ∀ q' ∈ r.back, q.pid ≠ q'.pid) := by
  obtain ⟨r, hok, hroute, htiny, hdisj, _, _, _⟩ :=
    split_node_portals_routing ⟨⟨1, 0, 0⟩, 2⟩ 11 12 10
      [⟨⟨⟨0, 0, 1⟩, 0⟩, some 9, some 10, some 20,
        [⟨0, 0, 0⟩, ⟨4, 0, 0⟩, ⟨4, 4, 0⟩, ⟨0, 4, 0⟩], 0⟩] 1
      (by decide) (by decide) (by decide)
  refine ⟨r, hok, ?_, hdisj⟩
  rw [htiny]
  decide

/-- Inversion of a successful `splitNodePortals`: the tiny statistic is
exactly the sum of per-portal tiny drops, and non-tiny inputs yield only
non-tiny output windings. -/
lemma split_ok_inv (plane : Plane) (f b nid : ℕ) :
    ∀ (ps : List BuildPortal) (k : ℕ) (r : SplitResult),
    splitNodePortals plane f b nid ps k = .ok r →
    r.tinyDelta = (ps.map (fun p => tinyDropCount plane p.winding)).sum ∧
    ((∀ p ∈ ps, WindingIsTiny p.winding tinyDefault = false) →
      (∀ q ∈ r.front, WindingIsTiny q.winding tinyDefault = false) ∧
      (∀ q ∈ r.back, WindingIsTiny q.winding tinyDefault = false)) := by
  intro ps
  induction ps with
  | nil =>
    intro k r h
    simp only [splitNodePortals] at h
    cases h
    exact ⟨by simp, fun _ => ⟨by simp, by simp⟩⟩
  | cons p ps ih =>
    intro k r h
    simp only [splitNodePortals] at h
    by_cases hp : p.node0 = some nid ∨ p.node1 = some nid
    case neg =>
      rw [if_pos (by exact hp)] at h
      cases h
    case pos =>
    rw [if_neg (not_not_intro hp)] at h
    have hinlift : (∀ q ∈ p :: ps, WindingIsTiny q.winding tinyDefault = false) →
        ∀ q ∈ ps, WindingIsTiny q.winding tinyDefault = false :=
      fun hin q hq => hin q (List.mem_cons_of_mem p hq)
    rcases hsf : splitFrags plane p.winding with ⟨fw, bw⟩
    rw [hsf] at h
    cases fw with
    | none =>
      cases bw with
      | none =>
        cases hrec : splitNodePortals plane f b nid ps k with
        | error m => rw [hrec] at h; simp [Bind.bind, Except.bind] at h
        | ok r2 =>
          rw [hrec] at h
          simp only [Bind.bind, Except.bind] at h
          cases h
          obtain ⟨htd, hnt⟩ := ih k r2 hrec
          refine ⟨?_, fun hin => ⟨(hnt (hinlift hin)).1, (hnt (hinlift hin)).2⟩⟩
          simp only [List.map_cons, List.sum_cons, htd]
      | some bv =>
        cases hrec : splitNodePortals plane f b nid ps k with
        | error m => rw [hrec] at h; simp [Bind.bind, Except.bind] at h
        | ok r2 =>
          rw [hrec] at h
          simp only [Bind.bind, Except.bind] at h
          cases h
          obtain ⟨htd, hnt⟩ := ih k r2 hrec
          refine ⟨?_, fun hin => ⟨(hnt (hinlift hin)).1, ?_⟩⟩
          · simp only [List.map_cons, List.sum_cons, htd]
          · intro q hq
            rcases List.mem_cons.mp hq with hh | hh
            · rw [hh, (relinkTo_fields p nid b).1]
              exact hin p (List.mem_cons_self p ps)
            · exact (hnt (hinlift hin)).2 q hh
    | some fv =>
      cases bw with
      | none =>
        cases hrec : splitNodePortals plane f b nid ps k with
        | error m => rw [hrec] at h; simp [Bind.bind, Except.bind] at h
        | ok r2 =>
          rw [hrec] at h
          simp only [Bind.bind, Except.bind] at h
          cases h
          obtain ⟨htd, hnt⟩ := ih k r2 hrec
          refine ⟨?_, fun hin => ⟨?_, (hnt (hinlift hin)).2⟩⟩
          · simp only [List.map_cons, List.sum_cons, htd]
          · intro q hq
            rcases List.mem_cons.mp hq with hh | hh
            · rw [hh, (relinkTo_fields p nid f).1]
              exact hin p (List.mem_cons_self p ps)
            · exact (hnt (hinlift hin)).1 q hh
      | some bv =>
        cases hrec : splitNodePortals plane f b nid ps (k + 1) with
        | error m => rw [hrec] at h; simp [Bind.bind, Except.bind] at h
        | ok r2 =>
          rw [hrec] at h
          simp only [Bind.bind, Except.bind] at h
          cases h
          obtain ⟨htd, hnt⟩ := ih (k + 1) r2 hrec
          have hfvnt : WindingIsTiny fv tinyDefault = false :=
            (splitFrags_nontiny plane p.winding).1 fv (by rw [hsf])
          have hbvnt : WindingIsTiny bv tinyDefault = false :=
            (splitFrags_nontiny plane p.winding).2 bv (by rw [hsf])
          refine ⟨?_, fun hin => ⟨?_, ?_⟩⟩
          · simp only [List.map_cons, List.sum_cons, htd]
          · intro q hq
            rcases List.mem_cons.mp hq with hh | hh
            · rw [hh, (relinkTo_fields { p with winding := fv } nid f).1]
              exact hfvnt
            · exact (hnt (hinlift hin)).1 q hh
          · intro q hq
            rcases List.mem_cons.mp hq with hh | hh
            · rw [hh]
              exact hbvnt
            · exact (hnt (hinlift hin)).2 q hh

/-- Inversion of a successful `clipNodePortalsToTree`: non-tiny inputs
yield only non-tiny output windings. -/
lemma clipTree_nontiny (ty : PortalType) :
    ∀ (t : GTree) (ps : List BuildPortal) (k : ℕ) (r : PortalListResult),
    clipNodePortalsToTree ty t ps k = .ok r →
    (∀ p ∈ ps, WindingIsTiny p.winding tinyDefault = false) →
    ∀ q ∈ r.portals, WindingIsTiny q.winding tinyDefault = false := by
  intro t
  induction t with
  | leaf i =>
    intro ps k r h hin
    simp only [clipNodePortalsToTree] at h
    cases h
    exact hin
  | node nid plane det c0 c1 ih0 ih1 =>
    intro ps k r h hin
    simp only [clipNodePortalsToTree] at h
    by_cases hemp : ps.isEmpty
    · rw [if_pos hemp] at h
      cases h
      exact hin
    · rw [if_neg hemp] at h
      by_cases hvd : ty = PortalType.vis ∧ det = true
      · rw [if_pos hvd] at h
        cases h
        exact hin
      · rw [if_neg hvd] at h
        cases hs : splitNodePortals plane c0.rootId c1.rootId nid ps k with
        | error m => rw [hs] at h; simp [Bind.bind, Except.bind] at h
        | ok s =>
          rw [hs] at h
          simp only [Bind.bind, Except.bind] at h
          cases hf : clipNodePortalsToTree ty c0 s.front s.nextId with
          | error m => rw [hf] at h; simp at h
          | ok rf =>
            rw [hf] at h
            simp only at h
            cases hb : clipNodePortalsToTree ty c1 s.back rf.nextId with
            | error m => rw [hb] at h; simp at h
            | ok rb =>
              rw [hb] at h
              simp only at h
              cases h
              have hsp := (split_ok_inv plane c0.rootId c1.rootId nid ps k s hs).2 hin
              have h0 := ih0 s.front s.nextId rf hf hsp.1
              have h1 := ih1 s.back rf.nextId rb hb hsp.2
              intro q hq
              rcases List.mem_append.mp hq with hh | hh
              · exact h0 q hh
              · exact h1 q hh

/-- Characterisation of a successful `makeNodePortal`: the node portal,
built from the ancestor- and boundary-clipped winding, is dropped silently
when the winding vanished, dropped with exactly one tiny-statistic
increment when the winding is tiny, and otherwise carries the non-tiny
winding between the two children with a fresh identity. -/
lemma makeNodePortal_spec (nid : ℕ) (plane : Plane) (f b : ℕ)
    (anc : List (Plane × Bool)) (boundary : List BuildPortal) (k : ℕ)
    (res : NodePortalResult)
    (h : makeNodePortal nid plane f b anc boundary k = .ok res) :
    ∃ w, clipByBoundary nid (baseWindingForNode plane anc) boundary = .ok w ∧
      (w = none → res = ⟨none, 0, k⟩) ∧
      (∀ v, w = some v → WindingIsTiny v tinyDefault = true →
        res = ⟨none, 1, k⟩) ∧
      (∀ v, w = some v → WindingIsTiny v tinyDefault = false →
        res = ⟨some ⟨plane, some nid, some f, some b, v, k⟩, 0, k + 1⟩) := by
  unfold makeNodePortal at h
  cases hcb : clipByBoundary nid (baseWindingForNode plane anc) boundary with
  | error m => rw [hcb] at h; simp [Bind.bind, Except.bind] at h
  | ok w =>
    rw [hcb] at h
    simp only [Bind.bind, Except.bind] at h
    refine ⟨w, rfl, ?_, ?_, ?_⟩
    · intro hw
      subst hw
      cases h
      rfl
    · intro v hw ht
      subst hw
      simp only [ht, if_true] at h
      cases h
      rfl
    · intro v hw ht
      subst hw
      simp only [ht] at h
      rw [if_neg (by simp)] at h
      cases h
      rfl

/-- Inversion of a successful `makeTreePortals_r`: non-tiny boundary
portals yield only non-tiny windings in the fully portalized result. -/
lemma makeTree_r_nontiny (ty : PortalType) :
    ∀ (t : GTree) (anc : List (Plane × Bool)) (bp : List BuildPortal)
      (k : ℕ) (r : PortalListResult),
    makeTreePortals_r ty anc t bp k = .ok r →
    (∀ p ∈ bp, WindingIsTiny p.winding tinyDefault = false) →
    ∀ q ∈ r.portals, WindingIsTiny q.winding tinyDefault = false := by
  intro t
  induction t with
  | leaf i =>
    intro anc bp k r h hin
    simp only [makeTreePortals_r] at h
    cases h
    exact hin
  | node nid plane det c0 c1 ih0 ih1 =>
    intro anc bp k r h hin
    simp only [makeTreePortals_r] at h
    by_cases hvd : ty = PortalType.vis ∧ det = true
    · rw [if_pos hvd] at h
      cases h
      exact hin
    · rw [if_neg hvd] at h
      cases hnp : makeNodePortal nid plane c0.rootId c1.rootId anc bp k with
      | error m => rw [hnp] at h; simp [Bind.bind, Except.bind] at h
      | ok np =>
        rw [hnp] at h
        simp only [Bind.bind, Except.bind] at h
        cases hs : splitNodePortals plane c0.rootId c1.rootId nid bp np.nextId with
        | error m => rw [hs] at h; simp at h
        | ok s =>
          rw [hs] at h
          simp only at h
          cases hrf : makeTreePortals_r ty ((plane, true) :: anc) c0 s.front s.nextId with
          | error m => rw [hrf] at h; simp at h
          | ok rf =>
            rw [hrf] at h
            simp only at h
            cases hrb : makeTreePortals_r ty ((plane, false) :: anc) c1 s.back rf.nextId with
            | error m => rw [hrb] at h; simp at h
            | ok rb =>
              rw [hrb] at h
              simp only at h
              have hsp := (split_ok_inv plane c0.rootId c1.rootId nid bp
                np.nextId s hs).2 hin
              have h0 := ih0 ((plane, true) :: anc) s.front s.nextId rf hrf hsp.1
              have h1 := ih1 ((plane, false) :: anc) s.back rf.nextId rb hrb hsp.2
              cases hport : np.portal with
              | none =>
                rw [hport] at h
                cases h
                intro q hq
                rcases List.mem_append.mp hq with hh | hh
                · exact h0 q hh
                · exact h1 q hh
              | some npp =>
                rw [hport] at h
                simp only at h
                cases hhalf : clipNodePortalsToTree ty c0 [npp] rb.nextId with
                | error m => rw [hhalf] at h; simp at h
                | ok half =>
                  rw [hhalf] at h
                  simp only at h
                  cases hfull : clipNodePortalsToTree ty c1 half.portals half.nextId with
                  | error m => rw [hfull] at h; simp at h
                  | ok full =>
                    rw [hfull] at h
                    simp only at h
                    cases h
                    have hnppnt : WindingIsTiny npp.winding tinyDefault = false := by
                      obtain ⟨w, hw, hnone, htiny, hok⟩ :=
                        makeNodePortal_spec nid plane c0.rootId c1.rootId anc
                          bp k np hnp
                      cases w with
                      | none =>
                        have := hnone rfl
                        rw [this] at hport
                        cases hport
                      | some v =>
                        by_cases ht : WindingIsTiny v tinyDefault = true
                        · have := htiny v rfl ht
                          rw [this] at hport
                          cases hport
                        · have hv := hok v rfl (Bool.eq_false_iff.mpr ht)
                          rw [hv] at hport
                          simp only [Option.some.injEq] at hport
                          rw [← hport]
                          exact Bool.eq_false_iff.mpr ht
                    have hhalfnt := clipTree_nontiny ty c0 [npp] rb.nextId half
                      hhalf (by intro p hp2; rw [List.mem_singleton.mp hp2]; exact hnppnt)
                    have hfullnt := clipTree_nontiny ty c1 half.portals
                      half.nextId full hfull hhalfnt
                    intro q hq
                    rcases List.mem_append.mp hq with hh | hh
                    · rcases List.mem_append.mp hh with hh2 | hh2
                      · exact h0 q hh2
                      · exact h1 q hh2
                    · exact hfullnt q hh

/-- Claim C6: a winding below the tiny threshold (default 0.2) never
appears in the final portal collection — whenever the six headnode box
windings are non-tiny, the whole portalization pipeline produces only
non-tiny windings — and each dropped tiny winding increments the
tiny-portal statistic exactly once: `makeNodePortal` adds exactly 1 when
its clipped winding is tiny and 0 otherwise, and `splitNodePortals` adds
exactly the number of tiny clipped fragments. -/
theorem tiny_never_in_final_collection (tree : GTree) (tb : Aabb)
    (oid : ℕ) (g : GamePolicy) (eps : ℚ) :
    (∀ (hp : HeadnodeResult) (res : List TPortal × ℕ),
      makeHeadnodePortals tb tree.rootId oid g eps = .ok hp →
      (∀ p ∈ hp.portals, WindingIsTiny p.winding tinyDefault = false) →
      makeTreePortals tree tb oid g eps = .ok res →
      ∀ q ∈ res.1, WindingIsTiny q.winding tinyDefault = false) ∧
    (∀ (nid : ℕ) (plane : Plane) (f b : ℕ) (anc : List (Plane × Bool))
        (boundary : List BuildPortal) (k : ℕ) (res : NodePortalResult),
      makeNodePortal nid plane f b anc boundary k = .ok res →
      ∃ w, clipByBoundary nid (baseWindingForNode plane anc) boundary = .ok w ∧
        (w = none → res = ⟨none, 0, k⟩) ∧
        (∀ v, w = some v → WindingIsTiny v tinyDefault = true →
          res = ⟨none, 1, k⟩) ∧
        (∀ v, w = some v → WindingIsTiny v tinyDefault = false →
          res = ⟨some ⟨plane, some nid, some f, some b, v, k⟩, 0, k + 1⟩)) ∧
    (∀ (plane : Plane) (f2 b2 nid : ℕ) (ps : List BuildPortal) (k : ℕ)
        (r : SplitResult),
      splitNodePortals plane f2 b2 nid ps k = .ok r →
      r.tinyDelta = (ps.map (fun p => tinyDropCount plane p.winding)).sum) := by
  refine ⟨?_,
    fun nid plane f b anc boundary k res h =>
      makeNodePortal_spec nid plane f b anc boundary k res h,
    fun plane f2 b2 nid ps k r h =>
      (split_ok_inv plane f2 b2 nid ps k r h).1⟩
  intro hp res hhp hnt hres
  unfold makeTreePortals at hres
  rw [hhp] at hres
  simp only [Bind.bind, Except.bind] at hres
  cases hr : makeTreePortals_r PortalType.tree [] tree hp.portals 6 with
  | error m => rw [hr] at hres; simp at hres
  | ok r =>
    rw [hr] at hres
    simp only at hres
    cases hres
    intro q hq
    simp only [makePortalsFromBuildportals, List.mem_map] at hq
    obtain ⟨p2, hp2, hpe⟩ := hq
    rw [← hpe]
    exact makeTree_r_nontiny PortalType.tree tree [] hp.portals 6 r hr hnt p2 hp2

/-- Witness for C6: the full pipeline on a single-leaf tree inside a
concrete box yields a final collection with no tiny winding. -/
theorem tiny_never_in_final_collection_witness :
    ∃ res : List TPortal × ℕ,
      makeTreePortals (GTree.leaf 100) ⟨⟨0, 0, 0⟩, ⟨64, 64, 64⟩⟩ 999
        samplePolicy (1/10000) = .ok res ∧
      ∀ q ∈ res.1, WindingIsTiny q.winding tinyDefault = false := by
  have hall : (match makeHeadnodePortals ⟨⟨0, 0, 0⟩, ⟨64, 64, 64⟩⟩
      (GTree.leaf 100).rootId 999 samplePolicy (1/10000) with
      | .ok hp => decide (∀ p ∈ hp.portals,
          WindingIsTiny p.winding tinyDefault = false)
      | .error _ => false) = true := by decide
  have hisok : (makeTreePortals (GTree.leaf 100) ⟨⟨0, 0, 0⟩, ⟨64, 64, 64⟩⟩
      999 samplePolicy (1/10000)).isOk = true := by decide
  cases hhp : makeHeadnodePortals ⟨⟨0, 0, 0⟩, ⟨64, 64, 64⟩⟩
      (GTree.leaf 100).rootId 999 samplePolicy (1/10000) with
  | error m =>
    rw [hhp] at hall
    exact absurd hall (by simp)
  | ok hp =>
    rw [hhp] at hall
    have hnt := of_decide_eq_true hall
    cases hres : makeTreePortals (GTree.leaf 100) ⟨⟨0, 0, 0⟩, ⟨64, 64, 64⟩⟩
        999 samplePolicy (1/10000) with
    | error m =>
      rw [hres] at hisok
      simp [Except.isOk, Except.toBool] at hisok
    | ok res =>
      exact ⟨res, rfl, (tiny_never_in_final_collection (GTree.leaf 100)
        ⟨⟨0, 0, 0⟩, ⟨64, 64, 64⟩⟩ 999 samplePolicy (1/10000)).1 hp res
        hhp hnt hres⟩

/-- Counterexample for C1: on `cxPortal`, portal side 1 has two exact
planar candidates — the solid brush's side (map index 1, via an outward
face) and the later-declared water brush's side (map index 2, via an
inward face) — yet `FindPortalSide` selects the solid brush's side
`cxSideS`, because the side-0 node's brushes are scanned before the
side-1 node's regardless of map declaration order. -/
theorem find_portal_side_latest_counterexample :
    findPortalSide samplePolicy cxPortal =
      .ok (some (some cxSideW, some cxSideS)) ∧
    slotAllowed samplePolicy (samplePolicy.visibleContents 1 2) true true
      ⟨2, 2, [cxSideW]⟩ = true ∧
    firstExactSide 7 [cxSideW] = some cxSideW ∧
    cxSideS ≠ cxSideW := by
  refine ⟨by decide, by decide, by decide, by decide⟩

/-- Counterexample for C2: on `cx2Portal` no side matches the portal's
plane family; `cx2SideB` is the only candidate for portal side 0 and has
dot 3/5 > 0 with the portal normal, yet side 0 ends up with no selection,
because the side-0 node's candidate `cx2SideA` (dot 4/5, recorded for
portal side 1) already raised the shared `bestdot` threshold. -/
theorem find_portal_side_dot_counterexample :
    findPortalSide cx2Policy cx2Portal = .ok (some (none, some cx2SideA)) ∧
    dotCandidates cx2Policy (cx2Policy.visibleContents 1 1)
      ⟨1, [⟨1, 1, [cx2SideA]⟩]⟩ ⟨1, [⟨1, 2, [cx2SideB]⟩]⟩ =
      [⟨false, true, false, cx2SideA⟩, ⟨true, true, false, cx2SideB⟩] ∧
    Vec3.dot ⟨1, 0, 0⟩ cx2SideB.positiveNormal > 0 := by
  refine ⟨by decide, by decide, by decide⟩

/-- The dot-product step never touches the exact slots. -/
lemma dotStepState_exact (nv : Vec3) (j genOut genIn : Bool) (st : FPSState)
    (s : BrushSide) :
    (dotStepState nv j genOut genIn st s).exactside0 = st.exactside0 ∧
    (dotStepState nv j genOut genIn st s).exactside1 = st.exactside1 := by
  unfold dotStepState FPSState.setBest
  by_cases h1 : Vec3.dot nv s.positiveNormal > st.bestdot <;>
    cases genOut <;> cases genIn <;> cases j <;> simp [h1]

/-- Reading a slot after a conditional exact write. -/
lemma setExactIfUnset_exact (st : FPSState) (i i' : Bool) (s : BrushSide) :
    (st.setExactIfUnset i s).exact i' =
      if i' = i then
        (match st.exact i' with
         | some e => some e
         | none => some s)
      else st.exact i' := by
  unfold FPSState.setExactIfUnset FPSState.exact
  cases i <;> cases i' <;>
    cases h0 : st.exactside0 <;> cases h1 : st.exactside1 <;> simp [h0, h1]

/-- The exact-slot evolution of `processSides` when every plane-family
match is correctly oriented: the scan succeeds and each still-empty slot
receives the brush's first exact side exactly when the generation flags
allow that slot. -/
lemma processSides_exact_ok (fam : ℕ) (nv : Vec3) (j genOut genIn : Bool) :
    ∀ (sides : List BrushSide) (st : FPSState),
    (∀ s ∈ sides, s.bevel = false → s.planenumFam = fam →
      s.planenumFlip = !j) →
    ∃ st', processSides fam nv j genOut genIn sides st = .ok st' ∧
      ∀ i : Bool, st'.exact i =
        (match st.exact i with
         | some e => some e
         | none =>
           if exactAllowed j genOut genIn i then firstExactSide fam sides
           else none) := by
  intro sides
  induction sides with
  | nil =>
    intro st _
    refine ⟨st, rfl, ?_⟩
    intro i
    cases hsi : st.exact i <;> simp [firstExactSide, hsi]
  | cons s rest ih =>
    intro st hor
    by_cases hb : s.bevel = true
    · obtain ⟨st', hst', hex⟩ :=
        ih st (fun q hq => hor q (List.mem_cons_of_mem s hq))
      refine ⟨st', ?_, ?_⟩
      · simp only [processSides]
        rw [if_pos hb]
        exact hst'
      · intro i
        rw [hex i]
        cases hsi : st.exact i <;> simp [firstExactSide, hb, hsi]
    · have hb' : s.bevel = false := by
        revert hb; cases s.bevel <;> simp
      by_cases hm : s.planenumFam = fam
      · have hflip : s.planenumFlip = !j :=
          hor s (List.mem_cons_self s rest) hb' hm
        refine ⟨(if genIn then
            (if genOut then st.setExactIfUnset (!j) s else st).setExactIfUnset j s
          else (if genOut then st.setExactIfUnset (!j) s else st)), ?_, ?_⟩
        · simp only [processSides]
          rw [if_neg (by simp [hb']), if_pos hm,
            if_neg (by simp [hflip])]
        · intro i
          have hfe : firstExactSide fam (s :: rest) = some s := by
            simp [firstExactSide, hb', hm]
          rw [hfe]
          cases j <;> cases i <;> cases genOut <;> cases genIn <;>
            cases hsi0 : st.exactside0 <;> cases hsi1 : st.exactside1 <;>
            simp_all [FPSState.exact, FPSState.setExactIfUnset, exactAllowed]
      · obtain ⟨st', hst', hex⟩ :=
          ih (dotStepState nv j genOut genIn st s)
            (fun q hq => hor q (List.mem_cons_of_mem s hq))
        refine ⟨st', ?_, ?_⟩
        · simp only [processSides]
          rw [if_neg (by simp [hb']), if_neg hm]
          exact hst'
        · intro i
          rw [hex i]
          have hpres := dotStepState_exact nv j genOut genIn st s
          have hpres' : (dotStepState nv j genOut genIn st s).exact i =
              st.exact i := by
            cases i <;> simp [FPSState.exact, hpres.1, hpres.2]
          rw [hpres']
          have hfe : firstExactSide fam (s :: rest) =
              firstExactSide fam rest := by
            simp [firstExactSide, hb', hm]
          rw [hfe]

/-- The exact-slot evolution of one brush: an empty slot receives the
brush's first exact side exactly when `slotAllowed` holds. -/
lemma processBrush_exact_ok (g : GamePolicy) (vis fam : ℕ) (nv : Vec3)
    (j : Bool) (br : RBrush) (st : FPSState)
    (hor : ∀ s ∈ br.sides, s.bevel = false → s.planenumFam = fam →
      s.planenumFlip = !j) :
    ∃ st', processBrush g vis fam nv j br st = .ok st' ∧
      ∀ i : Bool, st'.exact i =
        (match st.exact i with
         | some e => some e
         | none =>
           if slotAllowed g vis j i br then firstExactSide fam br.sides
           else none) := by
  simp only [processBrush]
  by_cases hgen : g.generatesFace vis br.contents false = true ∨
      g.generatesFace vis br.contents true = true
  · rw [if_neg (not_not_intro hgen)]
    obtain ⟨st', hst', hex⟩ := processSides_exact_ok fam nv j
      (g.generatesFace vis br.contents false)
      (g.generatesFace vis br.contents true) br.sides st hor
    refine ⟨st', hst', ?_⟩
    intro i
    rw [hex i]
    rfl
  · rw [if_pos hgen]
    push_neg at hgen
    have hno : g.generatesFace vis br.contents false = false := by
      revert hgen; cases g.generatesFace vis br.contents false <;> simp
    have hni : g.generatesFace vis br.contents true = false := by
      revert hgen; cases g.generatesFace vis br.contents true <;> simp
    refine ⟨st, rfl, ?_⟩
    intro i
    cases hsi : st.exact i <;> simp [slotAllowed, hno, hni, hsi]

/-- The exact-slot evolution of a brush list: first write wins, scanning
the list in order. -/
lemma processBrushList_exact_ok (g : GamePolicy) (vis fam : ℕ) (nv : Vec3)
    (j : Bool) :
    ∀ (brs : List RBrush) (st : FPSState),
    (∀ br ∈ brs, ∀ s ∈ br.sides, s.bevel = false → s.planenumFam = fam →
      s.planenumFlip = !j) →
    ∃ st', processBrushList g vis fam nv j brs st = .ok st' ∧
      ∀ i : Bool, st'.exact i =
        (match st.exact i with
         | some e => some e
         | none => brs.findSome? (fun br =>
             if slotAllowed g vis j i br then firstExactSide fam br.sides
             else none)) := by
  intro brs
  induction brs with
  | nil =>
    intro st _
    refine ⟨st, rfl, ?_⟩
    intro i
    cases hsi : st.exact i <;> simp [hsi]
  | cons br rest ih =>
    intro st hor
    obtain ⟨st1, hst1, hex1⟩ := processBrush_exact_ok g vis fam nv j br st
      (hor br (List.mem_cons_self br rest))
    obtain ⟨st', hst', hex⟩ := ih st1
      (fun b hb => hor b (List.mem_cons_of_mem br hb))
    refine ⟨st', ?_, ?_⟩
    · simp only [processBrushList]
      rw [hst1]
      simp only [Bind.bind, Except.bind]
      exact hst'
    · intro i
      rw [hex i, hex1 i, List.findSome?_cons]
      cases hsi : st.exact i
      · cases hfb : (if slotAllowed g vis j i br then
            firstExactSide fam br.sides else none) <;> simp [hfb]
      · simp

/-- `findSome?` over a mapped list. -/
lemma findSome_over_map {α β γ : Type} (f : α → β) (g2 : β → Option γ) :
    ∀ l : List α, (l.map f).findSome? g2 = l.findSome? (fun x => g2 (f x)) := by
  intro l
  induction l with
  | nil => simp
  | cons a r ih =>
    rw [List.map_cons, List.findSome?_cons, List.findSome?_cons]
    cases g2 (f a) <;> simp [ih]

/-- `findSome?` over a mapped list, stated against any pointwise-equal
composite. -/
lemma findSome_over_map_congr {α β γ : Type} (f : α → β) (g2 : β → Option γ)
    (g3 : α → Option γ) (h : ∀ x, g2 (f x) = g3 x) :
    ∀ l : List α, (l.map f).findSome? g2 = l.findSome? g3 := by
  intro l
  induction l with
  | nil => simp
  | cons a r ih =>
    rw [List.map_cons, List.findSome?_cons, List.findSome?_cons, h a]
    cases g3 a <;> simp [ih]

/-- `findSome?` over an appended list: the left part wins when it finds
something. -/
lemma findSome_over_append {α γ : Type} (f : α → Option γ) :
    ∀ l1 l2 : List α, (l1 ++ l2).findSome? f =
      (match l1.findSome? f with
       | some x => some x
       | none => l2.findSome? f) := by
  intro l1 l2
  induction l1 with
  | nil => simp
  | cons a r ih =>
    rw [List.cons_append, List.findSome?_cons, List.findSome?_cons]
    cases f a <;> simp [ih]

/-- Claim C1 as amended: when the visible transition is nonempty and all
plane-family matches are correctly oriented, `FindPortalSide` resolves
both portal sides, and any selection slot for which an exact planar
candidate exists receives `exactChoice` — the exact side of the first
allowed brush in processing order (side-0 node's brushes first, each
node's list in reverse declaration order, so that within one node the
latest-declared brush wins). -/
theorem find_portal_side_exact_priority (g : GamePolicy) (p : RPortal)
    (hvis : g.isEmptyContents
      (g.visibleContents p.rnode0.contents p.rnode1.contents) = false)
    (hor0 : ∀ br ∈ p.rnode0.originalBrushes, ∀ s ∈ br.sides,
      s.bevel = false → s.planenumFam = p.onnodeFam →
      s.planenumFlip = true)
    (hor1 : ∀ br ∈ p.rnode1.originalBrushes, ∀ s ∈ br.sides,
      s.bevel = false → s.planenumFam = p.onnodeFam →
      s.planenumFlip = false) :
    ∃ c0 c1, findPortalSide g p = .ok (some (c0, c1)) ∧
      (∀ s, exactChoice g
          (g.visibleContents p.rnode0.contents p.rnode1.contents)
          p.onnodeFam p.rnode0 p.rnode1 false = some s → c0 = some s) ∧
      (∀ s, exactChoice g
          (g.visibleContents p.rnode0.contents p.rnode1.contents)
          p.onnodeFam p.rnode0 p.rnode1 true = some s → c1 = some s) := by
  obtain ⟨st1, hst1, hex1⟩ := processBrushList_exact_ok g
    (g.visibleContents p.rnode0.contents p.rnode1.contents) p.onnodeFam
    p.onnodeNormal false p.rnode0.originalBrushes.reverse
    ⟨none, none, none, none, 0⟩
    (by
      intro br hbr s hs h1 h2
      exact hor0 br (List.mem_reverse.mp hbr) s hs h1 h2)
  obtain ⟨st2, hst2, hex2⟩ := processBrushList_exact_ok g
    (g.visibleContents p.rnode0.contents p.rnode1.contents) p.onnodeFam
    p.onnodeNormal true p.rnode1.originalBrushes.reverse st1
    (by
      intro br hbr s hs h1 h2
      exact hor1 br (List.mem_reverse.mp hbr) s hs h1 h2)
  have hfinal : ∀ i : Bool, st2.exact i =
      exactChoice g (g.visibleContents p.rnode0.contents p.rnode1.contents)
        p.onnodeFam p.rnode0 p.rnode1 i := by
    intro i
    rw [hex2 i, hex1 i]
    have hz : (⟨none, none, none, none, 0⟩ : FPSState).exact i = none := by
      cases i <;> rfl
    rw [hz]
    unfold exactChoice brushScanOrder
    rw [findSome_over_append,
        findSome_over_map_congr _ _
          (fun br =>
            if slotAllowed g
                (g.visibleContents p.rnode0.contents p.rnode1.contents)
                false i br then
              firstExactSide p.onnodeFam br.sides
            else none) (fun x => rfl),
        findSome_over_map_congr _ _
          (fun br =>
            if slotAllowed g
                (g.visibleContents p.rnode0.contents p.rnode1.contents)
                true i br then
              firstExactSide p.onnodeFam br.sides
            else none) (fun x => rfl)]
    cases hA : List.findSome?
        (fun br =>
          if slotAllowed g
              (g.visibleContents p.rnode0.contents p.rnode1.contents)
              false i br then
            firstExactSide p.onnodeFam br.sides
          else none)
        p.rnode0.originalBrushes.reverse with
    | none => simp [hA]
    | some e => simp [hA]
  refine ⟨(match st2.exactside0 with
           | some e => some e
           | none => st2.bestside0),
          (match st2.exactside1 with
           | some e => some e
           | none => st2.bestside1), ?_, ?_, ?_⟩
  · unfold findPortalSide
    rw [if_neg (by simp [hvis])]
    simp only [Bind.bind, Except.bind, hst1, hst2]
  · intro s hc
    have := hfinal false
    rw [hc] at this
    have hse : st2.exactside0 = some s := by
      simpa [FPSState.exact] using this
    rw [hse]
  · intro s hc
    have := hfinal true
    rw [hc] at this
    have hse : st2.exactside1 = some s := by
      simpa [FPSState.exact] using this
    rw [hse]

/-- Witness for C1 as amended: two exact candidate brushes on the same
node, declared first and second — the second (scanned first in reverse
order) is selected. -/
theorem find_portal_side_exact_priority_witness :
    ∃ c0 c1, findPortalSide samplePolicy
        ⟨7, ⟨1, 0, 0⟩, ⟨0, []⟩,
         ⟨2, [⟨2, 1, [⟨7, false, false, ⟨-1, 0, 0⟩, 301⟩]⟩,
              ⟨2, 2, [⟨7, false, false, ⟨-1, 0, 0⟩, 302⟩]⟩]⟩⟩ =
      .ok (some (c0, c1)) ∧
      c0 = some ⟨7, false, false, ⟨-1, 0, 0⟩, 302⟩ := by
  obtain ⟨c0, c1, hok, h0, h1⟩ := find_portal_side_exact_priority samplePolicy
    ⟨7, ⟨1, 0, 0⟩, ⟨0, []⟩,
     ⟨2, [⟨2, 1, [⟨7, false, false, ⟨-1, 0, 0⟩, 301⟩]⟩,
          ⟨2, 2, [⟨7, false, false, ⟨-1, 0, 0⟩, 302⟩]⟩]⟩⟩
    (by decide) (by decide) (by decide)
  exact ⟨c0, c1, hok, h0 ⟨7, false, false, ⟨-1, 0, 0⟩, 302⟩ (by decide)⟩

/-- When no non-bevel side of the list lies in the onnode's plane family,
the inner loop never breaks: it folds the dot-product step over the
non-bevel sides. -/
lemma processSides_nomatch (fam : ℕ) (nv : Vec3) (j genOut genIn : Bool) :
    ∀ (sides : List BrushSide) (st : FPSState),
    (∀ s ∈ sides, s.bevel = false → s.planenumFam ≠ fam) →
    processSides fam nv j genOut genIn sides st =
      .ok ((sides.filter (fun s => !s.bevel)).foldl
        (dotStepState nv j genOut genIn) st) := by
  intro sides
  induction sides with
  | nil => intro st _; rfl
  | cons s rest ih =>
    intro st hnm
    by_cases hb : s.bevel = true
    · rw [show processSides fam nv j genOut genIn (s :: rest) st =
          processSides fam nv j genOut genIn rest st from by
        simp [processSides, hb]]
      rw [ih st (fun x hx => hnm x (List.mem_cons_of_mem s hx))]
      simp [List.filter_cons, hb]
    · have hb' : s.bevel = false := by
        revert hb; cases s.bevel <;> simp
      have hne : s.planenumFam ≠ fam :=
        hnm s (List.mem_cons_self s rest) hb'
      rw [show processSides fam nv j genOut genIn (s :: rest) st =
          processSides fam nv j genOut genIn rest
            (dotStepState nv j genOut genIn st s) from by
        simp [processSides, hb', hne]]
      rw [ih _ (fun x hx => hnm x (List.mem_cons_of_mem s hx))]
      simp [List.filter_cons, hb']

/-- One dot-product step commutes with the selection-triple projection
and leaves the exact slots untouched. -/
lemma tripleOf_dotStep (nv : Vec3) (j genOut genIn : Bool) (st : FPSState)
    (s : BrushSide) :
    tripleOf (dotStepState nv j genOut genIn st s) =
      dotScanStep nv (tripleOf st) ⟨j, genOut, genIn, s⟩ ∧
    (dotStepState nv j genOut genIn st s).exactside0 = st.exactside0 ∧
    (dotStepState nv j genOut genIn st s).exactside1 = st.exactside1 := by
  by_cases hd : Vec3.dot nv s.positiveNormal > st.bestdot
  · cases j <;> cases genOut <;> cases genIn <;>
      simp [dotStepState, dotScanStep, tripleOf, FPSState.setBest, hd]
  · simp [dotStepState, dotScanStep, tripleOf, hd]

/-- The dot-product fold commutes with the selection-triple projection
and leaves the exact slots untouched. -/
lemma tripleOf_dotFold (nv : Vec3) (j genOut genIn : Bool) :
    ∀ (ss : List BrushSide) (st : FPSState),
    tripleOf (ss.foldl (dotStepState nv j genOut genIn) st) =
      (ss.map (fun s => (⟨j, genOut, genIn, s⟩ : DotCand))).foldl
        (dotScanStep nv) (tripleOf st) ∧
    (ss.foldl (dotStepState nv j genOut genIn) st).exactside0 =
      st.exactside0 ∧
    (ss.foldl (dotStepState nv j genOut genIn) st).exactside1 =
      st.exactside1 := by
  intro ss
  induction ss with
  | nil => intro st; exact ⟨rfl, rfl, rfl⟩
  | cons s rest ih =>
    intro st
    obtain ⟨h1, h2, h3⟩ := tripleOf_dotStep nv j genOut genIn st s
    obtain ⟨k1, k2, k3⟩ := ih (dotStepState nv j genOut genIn st s)
    refine ⟨?_, ?_, ?_⟩
    · rw [List.foldl_cons, List.map_cons, List.foldl_cons, k1, h1]
    · rw [List.foldl_cons, k2, h2]
    · rw [List.foldl_cons, k3, h3]

/-- One brush of the scan, when none of its sides lies in the onnode's
plane family: the selection triple advances by exactly the brush's dot
candidates, and the exact slots are untouched. -/
lemma processBrush_nomatch (g : GamePolicy) (vis fam : ℕ) (nv : Vec3)
    (j : Bool) (br : RBrush) (st : FPSState)
    (hnm : ∀ s ∈ br.sides, s.bevel = false → s.planenumFam ≠ fam) :
    ∃ st', processBrush g vis fam nv j br st = .ok st' ∧
      tripleOf st' = (brushCands g vis j br).foldl (dotScanStep nv)
        (tripleOf st) ∧
      st'.exactside0 = st.exactside0 ∧ st'.exactside1 = st.exactside1 := by
  simp only [processBrush]
  by_cases hgen : g.generatesFace vis br.contents false = true ∨
      g.generatesFace vis br.contents true = true
  · rw [if_neg (not_not_intro hgen)]
    rw [processSides_nomatch fam nv j _ _ br.sides st hnm]
    obtain ⟨k1, k2, k3⟩ := tripleOf_dotFold nv j
      (g.generatesFace vis br.contents false)
      (g.generatesFace vis br.contents true)
      (br.sides.filter (fun s => !s.bevel)) st
    refine ⟨_, rfl, ?_, k2, k3⟩
    rw [k1]
    have hcond : (g.generatesFace vis br.contents false ||
        g.generatesFace vis br.contents true) = true := by
      rcases hgen with h | h <;> simp [h]
    simp [brushCands, hcond]
  · rw [if_pos hgen]
    push_neg at hgen
    have hno : g.generatesFace vis br.contents false = false := by
      revert hgen; cases g.generatesFace vis br.contents false <;> simp
    have hni : g.generatesFace vis br.contents true = false := by
      revert hgen; cases g.generatesFace vis br.contents true <;> simp
    refine ⟨st, rfl, ?_, rfl, rfl⟩
    simp [brushCands, hno, hni]

/-- A brush list, when no side of any brush lies in the onnode's plane
family: the selection triple advances by the concatenation of the
brushes' dot candidates, and the exact slots are untouched. -/
lemma processBrushList_nomatch (g : GamePolicy) (vis fam : ℕ) (nv : Vec3)
    (j : Bool) :
    ∀ (brs : List RBrush) (st : FPSState),
    (∀ br ∈ brs, ∀ s ∈ br.sides, s.bevel = false → s.planenumFam ≠ fam) →
    ∃ st', processBrushList g vis fam nv j brs st = .ok st' ∧
      tripleOf st' = (brs.bind (brushCands g vis j)).foldl (dotScanStep nv)
        (tripleOf st) ∧
      st'.exactside0 = st.exactside0 ∧ st'.exactside1 = st.exactside1 := by
  intro brs
  induction brs with
  | nil =>
    intro st _
    exact ⟨st, rfl, by simp [List.bind], rfl, rfl⟩
  | cons br rest ih =>
    intro st hnm
    obtain ⟨st1, h1, ht1, he10, he11⟩ := processBrush_nomatch g vis fam nv j
      br st (hnm br (List.mem_cons_self br rest))
    obtain ⟨st', h2, ht2, he20, he21⟩ := ih st1
      (fun b hb => hnm b (List.mem_cons_of_mem br hb))
    refine ⟨st', ?_, ?_, ?_, ?_⟩
    · simp only [processBrushList]
      rw [h1]
      simp only [Bind.bind, Except.bind]
      exact h2
    · rw [ht2, ht1]
      rw [show ((br :: rest).bind (brushCands g vis j)) =
          brushCands g vis j br ++ rest.bind (brushCands g vis j) from by
        simp [List.bind]]
      rw [List.foldl_append]
    · rw [he20, he10]
    · rw [he21, he11]

/-- `bind` over an appended list. -/
lemma bind_over_append {α γ : Type} (f : α → List γ) :
    ∀ l1 l2 : List α, (l1 ++ l2).bind f = l1.bind f ++ l2.bind f := by
  intro l1 l2
  induction l1 with
  | nil => simp [List.bind]
  | cons a r ih => simp [List.bind]

/-- `bind` over a mapped list, stated against any pointwise-equal
composite. -/
lemma bind_over_map_congr {α β γ : Type} (f : α → β) (g2 : β → List γ)
    (g3 : α → List γ) (h : ∀ x, g2 (f x) = g3 x) :
    ∀ l : List α, (l.map f).bind g2 = l.bind g3 := by
  intro l
  induction l with
  | nil => simp [List.bind]
  | cons a r ih => simp [List.bind, h a]; simp [List.bind] at ih; simp [ih]

/-- Claim C2 as amended: when the visible transition is nonempty and no
brush side of either node lies in the onnode's plane family, both final
selections come from one shared-threshold dot-product scan over the
concatenated candidates of both portal sides — side-0 node's brushes
first, each node's list in reverse declaration order, starting from a
single best dot of zero. -/
theorem find_portal_side_shared_bestdot (g : GamePolicy) (p : RPortal)
    (hvis : g.isEmptyContents
      (g.visibleContents p.rnode0.contents p.rnode1.contents) = false)
    (hnm0 : ∀ br ∈ p.rnode0.originalBrushes, ∀ s ∈ br.sides,
      s.bevel = false → s.planenumFam ≠ p.onnodeFam)
    (hnm1 : ∀ br ∈ p.rnode1.originalBrushes, ∀ s ∈ br.sides,
      s.bevel = false → s.planenumFam ≠ p.onnodeFam) :
    findPortalSide g p = .ok (some
      ((dotScan p.onnodeNormal (dotCandidates g
          (g.visibleContents p.rnode0.contents p.rnode1.contents)
          p.rnode0 p.rnode1)).2.1,
       (dotScan p.onnodeNormal (dotCandidates g
          (g.visibleContents p.rnode0.contents p.rnode1.contents)
          p.rnode0 p.rnode1)).2.2)) := by
  obtain ⟨st1, h1, ht1, he10, he11⟩ := processBrushList_nomatch g
    (g.visibleContents p.rnode0.contents p.rnode1.contents) p.onnodeFam
    p.onnodeNormal false p.rnode0.originalBrushes.reverse
    ⟨none, none, none, none, 0⟩
    (fun br hbr => hnm0 br (List.mem_reverse.mp hbr))
  obtain ⟨st2, h2, ht2, he20, he21⟩ := processBrushList_nomatch g
    (g.visibleContents p.rnode0.contents p.rnode1.contents) p.onnodeFam
    p.onnodeNormal true p.rnode1.originalBrushes.reverse st1
    (fun br hbr => hnm1 br (List.mem_reverse.mp hbr))
  have hex0 : st2.exactside0 = none := by rw [he20, he10]
  have hex1 : st2.exactside1 = none := by rw [he21, he11]
  have htrip : tripleOf st2 = dotScan p.onnodeNormal (dotCandidates g
      (g.visibleContents p.rnode0.contents p.rnode1.contents)
      p.rnode0 p.rnode1) := by
    rw [ht2, ht1]
    unfold dotScan dotCandidates brushScanOrder
    rw [bind_over_append,
        bind_over_map_congr (fun b : RBrush => ((false : Bool), b))
          (fun jb : Bool × RBrush =>
            brushCands g
              (g.visibleContents p.rnode0.contents p.rnode1.contents)
              jb.1 jb.2)
          (brushCands g
            (g.visibleContents p.rnode0.contents p.rnode1.contents) false)
          (fun x => rfl),
        bind_over_map_congr (fun b : RBrush => ((true : Bool), b))
          (fun jb : Bool × RBrush =>
            brushCands g
              (g.visibleContents p.rnode0.contents p.rnode1.contents)
              jb.1 jb.2)
          (brushCands g
            (g.visibleContents p.rnode0.contents p.rnode1.contents) true)
          (fun x => rfl),
        List.foldl_append]
    rfl
  have hb0 : st2.bestside0 = (dotScan p.onnodeNormal (dotCandidates g
      (g.visibleContents p.rnode0.contents p.rnode1.contents)
      p.rnode0 p.rnode1)).2.1 := by
    rw [← htrip]
    rfl
  have hb1 : st2.bestside1 = (dotScan p.onnodeNormal (dotCandidates g
      (g.visibleContents p.rnode0.contents p.rnode1.contents)
      p.rnode0 p.rnode1)).2.2 := by
    rw [← htrip]
    rfl
  unfold findPortalSide
  rw [if_neg (by simp [hvis])]
  simp only [Bind.bind, Except.bind, h1, h2]
  rw [hex0, hex1, hb0, hb1]

/-- Witness for C2 as amended: with one non-matching solid brush on each
node, the shared scan selects the side-0 node's side (dot 4/5) for slot 1
and nothing for slot 0, and `FindPortalSide` returns exactly that pair. -/
theorem find_portal_side_shared_bestdot_witness :
    findPortalSide cx2Policy cx2Portal = .ok (some (none, some cx2SideA)) := by
  have h := find_portal_side_shared_bestdot cx2Policy cx2Portal
    (by decide) (by decide) (by decide)
  rw [h]
  decide

end Theorems

end Portals
